import Mathlib

/-!
Verification of the vurlrs scripting-language runtime (src/parse.rs, src/run.rs,
src/builtins.rs) against its natural-language specification.

Shallow embedding conventions:
* `f64` numbers are modelled by `ℚ`.  Every numeric computation exercised by a
  theorem below stays inside the small-integer fragment on which `f64`
  arithmetic is exact.  Host operations whose exact result leaves the rational
  fragment (transcendental functions, `powf`, division/remainder producing
  infinities or NaN, the clock, the RNG, console I/O) are mapped to the
  distinguished outcome `Outcome.unmodeled`; no theorem depends on them.
* `Rc<RefCell<Vec<Value>>>` list handles are modelled by addresses (`Nat`)
  into an explicit store (`Store`): allocation appends, and the store is
  threaded through every operation.  Addresses are never freed, which is
  unobservable because the program cannot inspect addresses.
* `HashMap<Rc<str>, _>` is modelled by an association list with
  insert-replaces semantics (`insertA` returns the previous binding exactly
  like `HashMap::insert`).  Key-iteration order (only used by the `_globals` /
  `_locals` builtins) is the association-list order; no theorem depends on it.
* Rust panics (`usize` underflow in `end while`, `Vec::remove` out of range,
  indexing `lines` past the end inside a call frame, `tonum` on a line
  pointer) are modelled by the outcome `Outcome.panic`, distinct from every
  vurl `RunError`.
* divergence (infinite `while` loops, unbounded recursion, cyclic lists) is
  handled by a fuel parameter; exhaustion yields `Outcome.nofuel`.
-/

attribute [local semireducible] Rat.add Rat.sub Rat.mul

namespace Vurl

/-- Runtime values, mirroring `run.rs`: `Value::{String, List, Number, Lineptr}`.
A `List` value is a handle (store address) to a shared mutable sequence. -/
inductive Val where
  | str (s : String)
  | list (a : Nat)
  | num (q : ℚ)
  | lineptr (n : Nat)
deriving DecidableEq, Repr

/-- Backing storage for list values: address `a` denotes `σ.get? a`. -/
abbrev Store := List (List Val)

/-- Allocate a fresh list cell (models `Rc::new(RefCell::new(vec))`). -/
def alloc (σ : Store) (xs : List Val) : Store × Nat :=
  (σ ++ [xs], σ.length)

/-- Per-line expression tree, mirroring `parse.rs`:
`Expr::{Command, Literal, Number, Variable, Lineptr}`. -/
inductive Expr where
  | cmd (name : String) (args : List Expr)
  | lit (s : String)
  | num (q : ℚ)
  | var (s : String)
  | lineptr (n : Nat)
deriving Repr

/-- One parsed statement: a name plus ordered argument expressions
(`parse.rs` `struct Command`). -/
structure Command where
  name : String
  args : List Expr
deriving Repr

/-- Function-table entry (`run.rs` `struct Function`): entry line plus
declared parameter names (`none` = variadic). -/
structure Func where
  lineno : Nat
  arguments : Option (List String)
deriving DecidableEq, Repr

mutual
/-- Contextualised runtime error (`run.rs` `struct RunError`). -/
inductive RunError where
  | mk (line : Nat) (function : String) (inner : RunErrorKind)
deriving DecidableEq, Repr

/-- Error payloads (`run.rs` `enum RunErrorKind`).  `IOError` drops its host
payload (`std::io::Error` carries no information the program can observe). -/
inductive RunErrorKind where
  | Wrap (e : RunError)
  | Return (v : Val)
  | IsNotBuiltIn
  | ValueError (n : Nat)
  | NotDefined
  | MustBeTopLevel
  | UserError (s : String)
  | NameError (s : String)
  | FuncDefined (s : String)
  | IsNotNumber (v : Val)
  | IsNotList (v : Val)
  | IOError
  | ZeroIndex
  | IndexError (i : Nat) (len : Nat)
  | PopError
  | OrdError (s : String)
  | ChrError (n : Nat)
  | RandUnavailable
deriving DecidableEq, Repr
end

/-- Association list standing in for `HashMap`: lookup of key `k`. -/
def lookupA {α : Type} : List (String × α) → String → Option α
  | [], _ => none
  | (k', v) :: rest, k => if k' = k then some v else lookupA rest k

/-- Association-list insert with replace, returning the previous binding,
exactly like `HashMap::insert`. -/
def insertA {α : Type} : List (String × α) → String → α → List (String × α) × Option α
  | [], k, v => ([(k, v)], none)
  | (k', v') :: rest, k, v =>
      if k' = k then ((k, v) :: rest, some v')
      else
        let r := insertA rest k v
        ((k', v') :: r.1, r.2)

/-- Mutable interpreter state (`run.rs` `struct State`), minus the immutable
`lines`, which is passed separately to every execution function. -/
structure St where
  globals : List (String × Val)
  locals : List (String × Val)
  functions : List (String × Func)
  lineno : Nat
deriving DecidableEq, Repr

/-- Outcome of one host-level operation.  `ok`/`err` mirror `Result`;
`panic` is a Rust panic; `nofuel` is fuel exhaustion of this model
(divergence of the Rust program); `unmodeled` marks operations whose result
lies outside the embedded fragment (console I/O, clock, RNG, float
transcendentals). -/
inductive Outcome (ε α : Type) where
  | ok (a : α)
  | err (e : ε)
  | panic
  | nofuel
  | unmodeled
deriving DecidableEq, Repr

/-- Result of a builtin/dispatch step: the threaded store and state together
with the outcome.  Every constructor carries the store/state because Rust
mutates through `&mut` references that survive an `Err` return (e.g. the
`Return` signal, and the function-table insert that precedes the redefinition
check).  (A genuine inductive rather than a product, so that matches are
compiled to `casesOn` and evaluation of a step is shared.) -/
inductive BRes (ε α : Type) where
  | ok (σ : Store) (st : St) (a : α)
  | err (σ : Store) (st : St) (e : ε)
  | panic (σ : Store) (st : St)
  | nofuel (σ : Store) (st : St)
  | unmodeled (σ : Store) (st : St)
deriving DecidableEq, Repr

/-- Sequence two store/state-threading steps, propagating failures. -/
def thenB {ε α β : Type} : BRes ε α → (Store → St → α → BRes ε β) → BRes ε β
  | (.ok σ st a), f => f σ st a
  | (.err σ st e), _ => (.err σ st e)
  | (.panic σ st), _ => (.panic σ st)
  | (.nofuel σ st), _ => (.nofuel σ st)
  | (.unmodeled σ st), _ => (.unmodeled σ st)

/-- Map over the success branch of an outcome. -/
def Outcome.map {ε α β : Type} (f : α → β) : Outcome ε α → Outcome ε β
  | .ok a => .ok (f a)
  | .err e => .err e
  | .panic => .panic
  | .nofuel => .nofuel
  | .unmodeled => .unmodeled

/-- Lift a pure outcome into a threaded result. -/
def liftB {ε α : Type} (σ : Store) (st : St) : Outcome ε α → BRes ε α
  | .ok a => (.ok σ st a)
  | .err e => (.err σ st e)
  | .panic => (.panic σ st)
  | .nofuel => (.nofuel σ st)
  | .unmodeled => (.unmodeled σ st)

/-- Digit-string to natural number. -/
def natOfDigits (cs : List Char) : Nat :=
  cs.foldl (fun n c => n * 10 + (c.toNat - '0'.toNat)) 0

/-- Model of `str::parse::<f64>` restricted to plain decimal numerals
(optional sign, integer digits, optional fractional digits).  Exotic `f64`
syntax (exponents, `inf`, `NaN`, underscore-free hex) is outside the model;
no theorem exercises it. -/
def strToNum (s : String) : Option ℚ :=
  let cs := s.toList
  let signed : ℚ × List Char :=
    match cs with
    | '-' :: r => (-1, r)
    | '+' :: r => (1, r)
    | _ => (1, cs)
  match signed.2.splitOn '.' with
  | [a] =>
      if a ≠ [] ∧ a.all Char.isDigit then some (signed.1 * natOfDigits a) else none
  | [a, b] =>
      if (a ++ b) ≠ [] ∧ (a ++ b).all Char.isDigit then
        some (signed.1 * ((natOfDigits a : ℚ) + (natOfDigits b : ℚ) / (10 ^ b.length)))
      else none
  | _ => none

/-- Model of `f64` `Display` for numbers: exact on integers (`3` prints as
"3"), which is the only case any theorem exercises; non-integral rationals
fall back to the rational printer, marking them as outside the faithful
fragment. -/
def numToStr (q : ℚ) : String :=
  if q.den = 1 then toString q.num else toString q

/-- Conversion of a value to a number (`Value::tonum`).  A line pointer makes
the Rust code `panic!()`. -/
def tonum (v : Val) : Outcome RunErrorKind ℚ :=
  match v with
  | .str s =>
      match strToNum s with
      | some q => .ok q
      | none => .err (.IsNotNumber v)
  | .list _ => .err (.IsNotNumber v)
  | .num n => .ok n
  | .lineptr _ => .panic

/-- Conversion to a zero-based index (`Value::toindex`):
`(tonum.floor() as usize).checked_sub(1)`, where the `as usize` cast clamps
negative floats to 0.  A result of `none` from `checked_sub` is the
`ZeroIndex` error. -/
def toindex (v : Val) : Outcome RunErrorKind Nat :=
  match tonum v with
  | .ok q =>
      match q.floor.toNat with
      | 0 => .err .ZeroIndex
      | k + 1 => .ok k
  | .err e => .err e
  | .panic => .panic
  | .nofuel => .nofuel
  | .unmodeled => .unmodeled

/-- Extract the address of a list value (`Value::tolist`, which borrows the
`RefCell`). -/
def tolist (v : Val) : Outcome RunErrorKind Nat :=
  match v with
  | .list a => .ok a
  | _ => .err (.IsNotList v)

/-- Read a list cell.  A dangling address cannot arise from program
execution; it maps to `panic` for totality. -/
def getList {ε : Type} (σ : Store) (a : Nat) : Outcome ε (List Val) :=
  match σ.get? a with
  | some xs => .ok xs
  | none => .panic

/-- Textual representation (`Value::tostr` = `Display`), fueled because list
values can be cyclic through the store. -/
def tostrFuel : Nat → Store → Val → Option String
  | 0, _, _ => none
  | fuel + 1, σ, v =>
      match v with
      | .str s => some s
      | .num q => some (numToStr q)
      | .lineptr n => some ("(line " ++ toString n ++ ")")
      | .list a =>
          match σ.get? a with
          | none => none
          | some xs =>
              match xs.mapM (tostrFuel fuel σ) with
              | none => none
              | some parts => some ("(" ++ String.intercalate "," parts ++ ")")

mutual
/-- Structural equality test (`builtins.rs` `fn eq`), fueled because cyclic
lists make the Rust function recurse forever (fuel also ticks once per list
element, so it bounds recursion depth plus traversal length).  Note the list
case compares only the zipped common prefix, exactly like
`l.iter().zip(m.iter()).all(..)`. -/
def eqFuel (fuel : Nat) (σ : Store) (a b : Val) : Option Bool :=
  match fuel with
  | 0 => none
  | fuel + 1 =>
      match a, b with
      | .list l, .list m =>
          match σ.get? l, σ.get? m with
          | some u, some v => eqPairs fuel σ (u.zip v)
          | _, _ => none
      | .num x, .num y => some (decide (x = y))
      | x, y =>
          match tostrFuel (fuel + 1) σ x, tostrFuel (fuel + 1) σ y with
          | some sx, some sy => some (decide (sx = sy))
          | _, _ => none

/-- Short-circuiting conjunction of `eqFuel` over zipped element pairs. -/
def eqPairs (fuel : Nat) (σ : Store) (l : List (Val × Val)) : Option Bool :=
  match fuel with
  | 0 => none
  | fuel + 1 =>
      match l with
      | [] => some true
      | (x, y) :: rest =>
          match eqFuel fuel σ x y with
          | none => none
          | some false => some false
          | some true => eqPairs fuel σ rest
end

/-- Test for the local-scope sigil, `s.starts_with('.')`: true exactly when
the first character is a dot.  (Implemented over the character list so that
it reduces in the kernel; `String.startsWith` does not.) -/
def startsDot (s : String) : Bool :=
  match s.toList with
  | c :: _ => c = '.'
  | [] => false

/-- Conversion of a host boolean to a vurl number (`fn frombool`). -/
def frombool (b : Bool) : Val :=
  .num (if b then 1 else 0)

/-- Default value (`Value::default()`): the empty string. -/
def defaultVal : Val := .str ""

/-- Left fold used by the variadic `add`/`mul` builtins
(`args.iter().map(tonum).reduce(|x, y| Ok(x? op y?))`): the first conversion
error wins, exactly like the Rust `?` chain. -/
def numsFold (f : ℚ → ℚ → ℚ) : ℚ → List Val → Outcome RunErrorKind ℚ
  | acc, [] => .ok acc
  | acc, v :: rest =>
      match tonum v with
      | .ok q => numsFold f (f acc q) rest
      | .err e => .err e
      | .panic => .panic
      | .nofuel => .nofuel
      | .unmodeled => .unmodeled

/-- Variadic reduction with a neutral default for the empty argument list
(`reduce(..).unwrap_or(Ok(dflt))`). -/
def numsReduce (f : ℚ → ℚ → ℚ) (dflt : ℚ) : List Val → Outcome RunErrorKind ℚ
  | [] => .ok dflt
  | v :: rest =>
      match tonum v with
      | .ok q => numsFold f q rest
      | .err e => .err e
      | .panic => .panic
      | .nofuel => .nofuel
      | .unmodeled => .unmodeled

/-- Loop of the variadic `or` builtin. -/
def orLoop : List Val → Outcome RunErrorKind Val
  | [] => .ok (.num 0)
  | v :: rest =>
      match tonum v with
      | .ok q => if q ≠ 0 then .ok (.num 1) else orLoop rest
      | .err e => .err e
      | .panic => .panic
      | .nofuel => .nofuel
      | .unmodeled => .unmodeled

/-- Loop of the variadic `and` builtin. -/
def andLoop : List Val → Outcome RunErrorKind Val
  | [] => .ok (.num 1)
  | v :: rest =>
      match tonum v with
      | .ok q => if q = 0 then .ok (.num 0) else andLoop rest
      | .err e => .err e
      | .panic => .panic
      | .nofuel => .nofuel
      | .unmodeled => .unmodeled

/-- Truncation toward zero, the rounding of Rust's `%` on floats. -/
def qtrunc (q : ℚ) : ℤ :=
  if 0 ≤ q then q.floor else q.ceil

/-- Rust `f64::round`: nearest integer, ties away from zero. -/
def rustRound (q : ℚ) : ℤ :=
  if 0 ≤ q then (q + 1 / 2).floor else -((1 / 2 - q).floor)

mutual

/-- Expression evaluation (`run.rs` `fn evaluate`): arguments strictly left to
right, then dispatch; a dispatch error is wrapped with the current program
counter and the command name.  Undefined variables are routed by the leading
dot sigil to the local map, otherwise the global map. -/
def evaluate (fuel : Nat) (lines : List (Option Command)) (σ : Store) (st : St)
    (e : Expr) : BRes RunError Val :=
  match fuel with
  | 0 => (.nofuel σ st)
  | fuel + 1 =>
      match e with
      | .lit s => (.ok σ st (.str s))
      | .num n => (.ok σ st (.num n))
      | .lineptr l => (.ok σ st (.lineptr l))
      | .var s =>
          match (if startsDot s then lookupA st.locals s else lookupA st.globals s) with
          | some v => (.ok σ st v)
          | none => (.err σ st (.mk st.lineno "[]" (.NameError s)))
      | .cmd name cargs =>
          thenB (evalArgs fuel lines σ st cargs) fun σ st vals =>
            match executeCommand fuel lines σ st name vals with
            | (.ok σ2 st2 v) => (.ok σ2 st2 v)
            | (.err σ2 st2 k) => (.err σ2 st2 (.mk st2.lineno name k))
            | (.panic σ2 st2) => (.panic σ2 st2)
            | (.nofuel σ2 st2) => (.nofuel σ2 st2)
            | (.unmodeled σ2 st2) => (.unmodeled σ2 st2)


/-- Left-to-right evaluation of an argument vector
(`args.iter().map(..).collect::<Result<Vec<_>, _>>()`). -/
def evalArgs (fuel : Nat) (lines : List (Option Command)) (σ : Store) (st : St)
    (es : List Expr) : BRes RunError (List Val) :=
  match fuel with
  | 0 => (.nofuel σ st)
  | fuel + 1 =>
      match es with
      | [] => (.ok σ st [])
      | e :: rest =>
          thenB (evaluate fuel lines σ st e) fun σ st v =>
            thenB (evalArgs fuel lines σ st rest) fun σ st vs =>
              (.ok σ st (v :: vs))


/-- Command dispatch (`run.rs` `fn execute_command`): builtins first, then the
function table.  A function call allocates the implicit `.args` list, binds
declared parameters into a fresh local map (arity mismatch is a hard error
naming the declared count), and runs the body in a frame that shares the
globals and function table but owns its locals and program counter. -/
def executeCommand (fuel : Nat) (lines : List (Option Command)) (σ : Store) (st : St)
    (name : String) (args : List Val) : BRes RunErrorKind Val :=
  match fuel with
  | 0 => (.nofuel σ st)
  | fuel + 1 =>
      match builtins fuel lines σ st name args with
      | (.err σ1 st1 .IsNotBuiltIn) => callFunction fuel lines σ1 st1 name args
      | r => r

/-- Function-table half of `fn execute_command`: look the name up (absent is
"not defined"), allocate the implicit `.args` list, bind declared parameters
into a fresh local map (arity mismatch is a hard error naming the declared
count), and run the body frame. -/
def callFunction (fuel : Nat) (lines : List (Option Command)) (σ : Store) (st : St)
    (name : String) (args : List Val) : BRes RunErrorKind Val :=
  match fuel with
  | 0 => (.nofuel σ st)
  | fuel + 1 =>
      match lookupA st.functions name with
      | none => (.err σ st .NotDefined)
      | some func =>
          let al := alloc σ args
          let locals0 : List (String × Val) := [(".args", .list al.2)]
          match func.arguments with
          | some fargs =>
              if fargs.length = args.length then
                callFrame fuel lines al.1 st func
                  ((fargs.zip args).foldl (fun m kv => (insertA m kv.1 kv.2).1) locals0)
              else (.err al.1 st (.ValueError fargs.length))
          | none => callFrame fuel lines al.1 st func locals0


/-- Body of a function invocation: build the callee state (shared globals and
function table, fresh locals, program counter at the entry line), run the
driving loop, then hand the caller back its own locals and program counter --
Rust keeps them untouched because the callee `State` only borrows the shared
maps. -/
def callFrame (fuel : Nat) (lines : List (Option Command)) (σ : Store) (st : St)
    (func : Func) (locals : List (String × Val)) : BRes RunErrorKind Val :=
  match fuel with
  | 0 => (.nofuel σ st)
  | fuel + 1 =>
      match callLoop fuel lines σ ⟨st.globals, locals, st.functions, func.lineno⟩ with
      | .ok σ2 stc v => .ok σ2 ⟨stc.globals, st.locals, stc.functions, st.lineno⟩ v
      | .err σ2 stc e => .err σ2 ⟨stc.globals, st.locals, stc.functions, st.lineno⟩ e
      | .panic σ2 stc => .panic σ2 ⟨stc.globals, st.locals, stc.functions, st.lineno⟩
      | .nofuel σ2 stc => .nofuel σ2 ⟨stc.globals, st.locals, stc.functions, st.lineno⟩
      | .unmodeled σ2 stc =>
          .unmodeled σ2 ⟨stc.globals, st.locals, stc.functions, st.lineno⟩


/-- Driving loop inside a call (`run.rs` `execute_command` tail loop): run the
line under the callee program counter, intercept the `Return` signal, wrap any
other error with the frame context.  There is no bounds check: running past
the end of the program indexes `lines` out of range, a host panic. -/
def callLoop (fuel : Nat) (lines : List (Option Command)) (σ : Store) (st : St) :
    BRes RunErrorKind Val :=
  match fuel with
  | 0 => (.nofuel σ st)
  | fuel + 1 =>
      match lines.get? st.lineno with
      | none => (.panic σ st)
      | some none => callLoop fuel lines σ { st with lineno := st.lineno + 1 }
      | some (some cmd) =>
          match evaluate fuel lines σ st (.cmd cmd.name cmd.args) with
          | (.ok σ2 st2 _) => callLoop fuel lines σ2 { st2 with lineno := st2.lineno + 1 }
          | (.err σ2 st2 (.mk _ _ (.Return v))) => (.ok σ2 st2 v)
          | (.err σ2 st2 e) => (.err σ2 st2 (.Wrap e))
          | (.panic σ2 st2) => (.panic σ2 st2)
          | (.nofuel σ2 st2) => (.nofuel σ2 st2)
          | (.unmodeled σ2 st2) => (.unmodeled σ2 st2)


/-- Builtin dispatch (`builtins.rs` `fn builtins`).  The first section handles
commands whose last evaluated argument is a line pointer (block commands wired
by the resolver); any other name with a trailing line pointer falls through to
`execute_command` with the pointer stripped.  The second section is the
ordinary name-indexed table; an unknown name yields `IsNotBuiltIn` so the
caller can try the function table. -/
def builtins (fuel : Nat) (lines : List (Option Command)) (σ : Store) (st : St)
    (name : String) (args : List Val) : BRes RunErrorKind Val :=
  match fuel with
  | 0 => (.nofuel σ st)
  | fuel + 1 =>
      match args.getLast? with
      | some (.lineptr lp) => builtinsBlock fuel lines σ st name args.dropLast lp
      | _ => builtinsNormal fuel lines σ st name args

/-- Section "code block commands" of `fn builtins`: the last evaluated
argument was a line pointer `lp` and has been stripped off `args`. -/
def builtinsBlock (fuel : Nat) (lines : List (Option Command)) (σ : Store) (st : St)
    (name : String) (args : List Val) (lp : Nat) : BRes RunErrorKind Val :=
  match fuel with
  | 0 => (.nofuel σ st)
  | fuel + 1 =>
      match name with
      | "end _cmd" | "end define" =>
              match args with
              | [] => (.err σ st (.Return defaultVal))
              | [v] => (.err σ st (.Return v))
              | _ => (.err σ st (.ValueError 1))
          | "end while" =>
              match args with
              | [] =>
                  -- `state.lineno = lineptr - 1` underflows `usize` when the
                  -- opener is line 0 (debug-build panic).
                  match lp with
                  | 0 => (.panic σ st)
                  | lp' + 1 => (.ok σ { st with lineno := lp' } defaultVal)
              | _ => (.err σ st (.ValueError 0))
          | "end if" =>
              match args with
              | [] => (.ok σ st defaultVal)
              | _ => (.err σ st (.ValueError 0))
          | "if" | "while" =>
              match args with
              | [cond] =>
                  match tonum cond with
                  | .ok q =>
                      if q = 0 then (.ok σ { st with lineno := lp } defaultVal)
                      else (.ok σ st defaultVal)
                  | .err e => (.err σ st e)
                  | .panic => (.panic σ st)
                  | .nofuel => (.nofuel σ st)
                  | .unmodeled => (.unmodeled σ st)
              | _ => (.err σ st (.ValueError 1))
          | "_cmd" =>
              match args with
              | [] | [_] => (.err σ st (.ValueError 1))
              | name0 :: params =>
                  thenB (liftB σ st (match tostrFuel (fuel + 1) σ name0 with
                                     | some s => Outcome.ok s
                                     | none => Outcome.nofuel)) fun σ st nm =>
                  thenB (liftB σ st (match params.mapM (tostrFuel (fuel + 1) σ) with
                                     | some ps => Outcome.ok ps
                                     | none => Outcome.nofuel)) fun σ st ps =>
                    let arguments : Option (List String) :=
                      match ps with
                      | p0 :: _ => if p0 = "..." then none else some ps
                      | [] => none
                    let ins := insertA st.functions nm ⟨st.lineno + 1, arguments⟩
                    match ins.2 with
                    | some _ => (.err σ { st with functions := ins.1 } (.FuncDefined nm))
                    | none => (.ok σ { st with functions := ins.1, lineno := lp } defaultVal)
          | "define" =>
              match args with
              | [nm0] =>
                  thenB (liftB σ st (match tostrFuel (fuel + 1) σ nm0 with
                                     | some s => Outcome.ok s
                                     | none => Outcome.nofuel)) fun σ st nm =>
                    let ins := insertA st.functions ("call " ++ nm) ⟨st.lineno + 1, none⟩
                    match ins.2 with
                    | some _ => (.err σ { st with functions := ins.1 } (.FuncDefined nm))
                    | none => (.ok σ { st with functions := ins.1, lineno := lp } defaultVal)
              | _ => (.err σ st (.ValueError 1))
      | _ => executeCommand fuel lines σ st name args

/-- Section "normal commands" of `fn builtins`: no trailing line pointer. -/
def builtinsNormal (fuel : Nat) (lines : List (Option Command)) (σ : Store) (st : St)
    (name : String) (args : List Val) : BRes RunErrorKind Val :=
  match fuel with
  | 0 => (.nofuel σ st)
  | fuel + 1 =>
      match name with
      | "add" => liftB σ st ((numsReduce (· + ·) 0 args).map Val.num)
          | "mul" => liftB σ st ((numsReduce (· * ·) 1 args).map Val.num)
          | "sub" =>
              match args with
              | [a, b] =>
                  thenB (liftB σ st (tonum a)) fun σ st x =>
                    thenB (liftB σ st (tonum b)) fun σ st y =>
                      (.ok σ st (.num (x - y)))
              | _ => (.err σ st (.ValueError 2))
          | "div" =>
              -- Exact rational division; the host computes in `f64`, exact on
              -- the fragment any theorem exercises.  Division by zero gives an
              -- `f64` infinity or NaN, outside the model.
              match args with
              | [a, b] =>
                  thenB (liftB σ st (tonum a)) fun σ st x =>
                    thenB (liftB σ st (tonum b)) fun σ st y =>
                      if y = 0 then (.unmodeled σ st) else (.ok σ st (.num (x / y)))
              | _ => (.err σ st (.ValueError 2))
          | "mod" =>
              match args with
              | [a, b] =>
                  thenB (liftB σ st (tonum a)) fun σ st x =>
                    thenB (liftB σ st (tonum b)) fun σ st y =>
                      if y = 0 then (.unmodeled σ st)
                      else (.ok σ st (.num (x - y * (qtrunc (x / y) : ℚ))))
              | _ => (.err σ st (.ValueError 2))
          | "_pow" =>
              match args with
              | [a, b] =>
                  thenB (liftB σ st (tonum a)) fun σ st _ =>
                    thenB (liftB σ st (tonum b)) fun σ st _ =>
                      (.unmodeled σ st)
              | _ => (.err σ st (.ValueError 2))
          | "_floor" =>
              match args with
              | [a] =>
                  thenB (liftB σ st (tonum a)) fun σ st x =>
                    (.ok σ st (.num (x.floor : ℚ)))
              | _ => (.err σ st (.ValueError 1))
          | "_round" =>
              match args with
              | [a] =>
                  thenB (liftB σ st (tonum a)) fun σ st x =>
                    (.ok σ st (.num (rustRound x : ℚ)))
              | _ => (.err σ st (.ValueError 1))
          | "_sqrt" | "_sin" | "_cos" | "_tan" | "_asin" | "_acos" | "_atan" | "_ln" | "_exp" =>
              -- Transcendental `f64` functions: checked like every `monad!`
              -- builtin, result outside the rational fragment.
              match args with
              | [a] =>
                  thenB (liftB σ st (tonum a)) fun σ st _ =>
                    (.unmodeled σ st)
              | _ => (.err σ st (.ValueError 1))
          | "len" =>
              match args with
              | [i] =>
                  match i with
                  | .list a =>
                      thenB (liftB σ st (getList σ a)) fun σ st xs =>
                        (.ok σ st (.num xs.length))
                  | l =>
                      match tostrFuel (fuel + 1) σ l with
                      | some s => (.ok σ st (.num s.length))
                      | none => (.nofuel σ st)
              | _ => (.err σ st (.ValueError 1))
          | "eq" =>
              match args with
              | [x, y] =>
                  match eqFuel (fuel + 1) σ x y with
                  | some b => (.ok σ st (frombool b))
                  | none => (.nofuel σ st)
              | _ => (.err σ st (.ValueError 2))
          | "not" =>
              match args with
              | [a] =>
                  thenB (liftB σ st (tonum a)) fun σ st x =>
                    (.ok σ st (frombool (x = 0)))
              | _ => (.err σ st (.ValueError 1))
          | "lt" =>
              match args with
              | [a, b] =>
                  thenB (liftB σ st (tonum a)) fun σ st x =>
                    thenB (liftB σ st (tonum b)) fun σ st y =>
                      (.ok σ st (frombool (x < y)))
              | _ => (.err σ st (.ValueError 2))
          | "gt" =>
              match args with
              | [a, b] =>
                  thenB (liftB σ st (tonum a)) fun σ st x =>
                    thenB (liftB σ st (tonum b)) fun σ st y =>
                      (.ok σ st (frombool (y < x)))
              | _ => (.err σ st (.ValueError 2))
          | "lte" =>
              match args with
              | [a, b] =>
                  thenB (liftB σ st (tonum a)) fun σ st x =>
                    thenB (liftB σ st (tonum b)) fun σ st y =>
                      (.ok σ st (frombool (x ≤ y)))
              | _ => (.err σ st (.ValueError 2))
          | "gte" =>
              match args with
              | [a, b] =>
                  thenB (liftB σ st (tonum a)) fun σ st x =>
                    thenB (liftB σ st (tonum b)) fun σ st y =>
                      (.ok σ st (frombool (y ≤ x)))
              | _ => (.err σ st (.ValueError 2))
          | "or" => liftB σ st (orLoop args)
          | "and" => liftB σ st (andLoop args)
          | "print" | "_printraw" | "_printerr" | "_printerrraw" =>
              -- Console output is an external effect; state is untouched and
              -- the result is the default value.
              (.ok σ st defaultVal)
          | "input" =>
              match args with
              | [] => (.unmodeled σ st)
              | _ => (.err σ st (.ValueError 0))
          | "substr" =>
              match args with
              | [s, x, y] =>
                  thenB (liftB σ st (toindex x)) fun σ st start =>
                    thenB (liftB σ st (toindex y)) fun σ st stop0 =>
                      match tostrFuel (fuel + 1) σ s with
                      | some str =>
                          (.ok σ st (.str (String.mk
                            (((str.toList).drop start).take ((stop0 + 1) - start)))))
                      | none => (.nofuel σ st)
              | _ => (.err σ st (.ValueError 3))
          | "_chr" =>
              match args with
              | [x] =>
                  thenB (liftB σ st (tonum x)) fun σ st q =>
                    -- `as u32` clamps negatives to 0 and huge values to
                    -- `u32::MAX`.
                    let n := min q.floor.toNat (2 ^ 32 - 1)
                    if h : n.isValidChar then
                      (.ok σ st (.str (String.mk [Char.ofNatAux n h])))
                    else (.err σ st (.ChrError n))
              | _ => (.err σ st (.ValueError 1))
          | "_ord" =>
              match args with
              | [x] =>
                  match tostrFuel (fuel + 1) σ x with
                  | some s =>
                      match s.toList with
                      | [c] => (.ok σ st (.num c.toNat))
                      | _ => (.err σ st (.OrdError s))
                  | none => (.nofuel σ st)
              | _ => (.err σ st (.ValueError 1))
          | "join" =>
              match args.mapM (tostrFuel (fuel + 1) σ) with
              | some parts => (.ok σ st (.str (String.join parts)))
              | none => (.nofuel σ st)
          | "list" =>
              let al := alloc σ args
              (.ok al.1 st (.list al.2))
          | "index" =>
              match args with
              | [l, i] =>
                  thenB (liftB σ st (tolist l)) fun σ st a =>
                    thenB (liftB σ st (getList σ a)) fun σ st xs =>
                      thenB (liftB σ st (toindex i)) fun σ st idx =>
                        match xs.get? idx with
                        | some v => (.ok σ st v)
                        | none => (.err σ st (.IndexError idx xs.length))
              | _ => (.err σ st (.ValueError 2))
          | "push" =>
              match args with
              | [l, v] =>
                  thenB (liftB σ st (tolist l)) fun σ st a =>
                    thenB (liftB σ st (getList σ a)) fun σ st xs =>
                      (.ok (σ.set a (xs ++ [v])) st defaultVal)
              | _ => (.err σ st (.ValueError 2))
          | "pop" =>
              match args with
              | [l] =>
                  thenB (liftB σ st (tolist l)) fun σ st a =>
                    thenB (liftB σ st (getList σ a)) fun σ st xs =>
                      match xs.getLast? with
                      | some v => (.ok (σ.set a xs.dropLast) st v)
                      | none => (.err σ st .PopError)
              | _ => (.err σ st (.ValueError 1))
          | "insert" =>
              match args with
              | [l, i, v] =>
                  thenB (liftB σ st (tolist l)) fun σ st a =>
                    thenB (liftB σ st (getList σ a)) fun σ st xs =>
                      thenB (liftB σ st (toindex i)) fun σ st ti =>
                        let idx := min xs.length ti
                        (.ok (σ.set a (xs.take idx ++ v :: xs.drop idx)) st defaultVal)
              | _ => (.err σ st (.ValueError 3))
          | "remove" =>
              match args with
              | [l, i] =>
                  thenB (liftB σ st (tolist l)) fun σ st a =>
                    thenB (liftB σ st (getList σ a)) fun σ st xs =>
                      thenB (liftB σ st (toindex i)) fun σ st ti =>
                        let idx := min xs.length ti
                        -- `Vec::remove` panics when the (clamped) index equals
                        -- the length, i.e. whenever `toindex` was past the end.
                        match xs.get? idx with
                        | some v => (.ok (σ.set a (xs.take idx ++ xs.drop (idx + 1))) st v)
                        | none => (.panic σ st)
              | _ => (.err σ st (.ValueError 2))
          | "replace" =>
              match args with
              | [l, i, v] =>
                  thenB (liftB σ st (tolist l)) fun σ st a =>
                    thenB (liftB σ st (getList σ a)) fun σ st xs =>
                      thenB (liftB σ st (toindex i)) fun σ st idx =>
                        match xs.get? idx with
                        | some _ => (.ok (σ.set a (xs.set idx v)) st defaultVal)
                        | none => (.err σ st (.IndexError idx xs.length))
              | _ => (.err σ st (.ValueError 3))
          | "_islist" =>
              match args with
              | [x] =>
                  match x with
                  | .list _ => (.ok σ st (.num 1))
                  | _ => (.ok σ st (.num 0))
              | _ => (.err σ st (.ValueError 1))
          | "_clone" =>
              match args with
              | [x] =>
                  match x with
                  | .list a =>
                      thenB (liftB σ st (getList σ a)) fun σ st xs =>
                        -- `l.borrow().clone()` copies the vector; the element
                        -- `Value`s are cloned shallowly, so nested list
                        -- handles stay shared.
                        let al := alloc σ xs
                        (.ok al.1 st (.list al.2))
                  | other => (.ok σ st other)
              | _ => (.err σ st (.ValueError 1))
          | "set" =>
              match args with
              | [l, r] =>
                  match tostrFuel (fuel + 1) σ l with
                  | some key =>
                      if startsDot key then
                        (.ok σ { st with locals := (insertA st.locals key r).1 } defaultVal)
                      else
                        (.ok σ { st with globals := (insertA st.globals key r).1 } defaultVal)
                  | none => (.nofuel σ st)
              | _ => (.err σ st (.ValueError 2))
          | "_get" =>
              match args with
              | [v] =>
                  match tostrFuel (fuel + 1) σ v with
                  | some s =>
                      match (if startsDot s then lookupA st.locals s else lookupA st.globals s) with
                      | some v2 => (.ok σ st v2)
                      | none => (.err σ st (.NameError s))
                  | none => (.nofuel σ st)
              | _ => (.err σ st (.ValueError 1))
          | "_globals" =>
              match args with
              | [] =>
                  let al := alloc σ (st.globals.map (fun kv => .str kv.1))
                  (.ok al.1 st (.list al.2))
              | _ => (.err σ st (.ValueError 0))
          | "_locals" =>
              match args with
              | [] =>
                  let al := alloc σ (st.locals.map (fun kv => .str kv.1))
                  (.ok al.1 st (.list al.2))
              | _ => (.err σ st (.ValueError 0))
          | "_error" =>
              match args with
              | [e] =>
                  match tostrFuel (fuel + 1) σ e with
                  | some s => (.err σ st (.UserError s))
                  | none => (.nofuel σ st)
              | _ => (.err σ st (.ValueError 1))
          | "call" =>
              match args with
              | [] => (.err σ st (.ValueError 1))
              | a0 :: rest =>
                  match tostrFuel (fuel + 1) σ a0 with
                  | some s => executeCommand fuel lines σ st ("call " ++ s) rest
                  | none => (.nofuel σ st)
          | "_apply" =>
              match args with
              | [n, a] =>
                  match tostrFuel (fuel + 1) σ n with
                  | some s =>
                      thenB (liftB σ st (tolist a)) fun σ st addr =>
                        thenB (liftB σ st (getList σ addr)) fun σ st xs =>
                          executeCommand fuel lines σ st s xs
                  | none => (.nofuel σ st)
              | _ => (.err σ st (.ValueError 2))
          | "_return" =>
              match args with
              | [] => (.err σ st (.Return defaultVal))
              | [x] => (.err σ st (.Return x))
              | _ => (.err σ st (.ValueError 1))
          | "_time" =>
              match args with
              | [] => (.unmodeled σ st)
              | _ => (.err σ st (.ValueError 0))
          | "_rand" | "_random" =>
              -- Default build: the `fastrand` feature is off.
              (.err σ st .RandUnavailable)
          | "end" | "while" | "if" | "define" | "_cmd" =>
              (.err σ st .MustBeTopLevel)
          | _ => (.err σ st .IsNotBuiltIn)


end

/-- Top-level driving loop (`run.rs` `fn execute_with_state`): run each line
(skipping blank lines), advance the program counter, stop past the end of the
program; errors abort. -/
def execLoop (fuel : Nat) (lines : List (Option Command)) (σ : Store) (st : St) :
    BRes RunError Unit :=
  match fuel with
  | 0 => (.nofuel σ st)
  | fuel + 1 =>
      if st.lineno < lines.length then
        match lines.get? st.lineno with
        | some (some cmd) =>
            match evaluate fuel lines σ st (.cmd cmd.name cmd.args) with
            | (.ok σ2 st2 _) => execLoop fuel lines σ2 { st2 with lineno := st2.lineno + 1 }
            | (.err σ2 st2 e) => (.err σ2 st2 e)
            | (.panic σ2 st2) => (.panic σ2 st2)
            | (.nofuel σ2 st2) => (.nofuel σ2 st2)
            | (.unmodeled σ2 st2) => (.unmodeled σ2 st2)
        | _ => execLoop fuel lines σ { st with lineno := st.lineno + 1 }
      else (.ok σ st ())

/-- Whole-program execution from the empty state (`run.rs` `fn execute`). -/
def execute (fuel : Nat) (lines : List (Option Command)) : BRes RunError Unit :=
  execLoop fuel lines [] ⟨[], [], [], 0⟩

/-- Per-line parse errors (`parse.rs` `enum ParseErrorLine`).  They are raised
only by the tokenizer `parse_command`, which is below the granularity of this
embedding: the resolver is modelled on already-tokenized lines. -/
inductive ParseErrorLine where
  | StringEOL
  | NameIsNotString
  | UnclosedParen
  | UnexpectedParen
  | EmptyCommand
deriving DecidableEq, Repr

/-- Parse/block-resolution errors (`parse.rs` `enum ParseError`). -/
inductive ParseError where
  | Lined (line : Nat) (e : ParseErrorLine)
  | UnclosedBlock
  | UnexpectedEnd
deriving DecidableEq, Repr

/-- Result of block resolution; `panic` models the `unwrap()` on the opener
slot (unreachable from the resolver's own pushes). -/
inductive RRes (α : Type) where
  | ok (a : α)
  | err (e : ParseError)
  | panic
deriving Repr

/-- Block-opener names recognized by the resolver (`parse.rs` line 105):
`"if" | "while" | "define" | "_func"`.  Note the named-function opener is
spelled `_func` here while `builtins.rs` dispatches on `_cmd`. -/
def isOpener (n : String) : Bool :=
  n = "if" || n = "while" || n = "define" || n = "_func"

/-- Block-resolution pass of `parse.rs` `fn parse`, on already-tokenized
lines: openers push their line number; `end` pops the stack (empty pop is
"unexpected end"), wires a trailing `Lineptr` into the opener pointing at the
`end` line and one into the `end` line pointing back, and renames the `end`
to `"end " ++ opener name`; a non-empty stack after the pass is "unclosed
block". -/
def resolveAux : List (Option Command) → List (Option Command) → List Nat →
    RRes (List (Option Command))
  | [], acc, [] => .ok acc
  | [], _, _ :: _ => .err .UnclosedBlock
  | none :: ls, acc, stack => resolveAux ls (acc ++ [none]) stack
  | some cmd :: ls, acc, stack =>
      if isOpener cmd.name then
        resolveAux ls (acc ++ [some cmd]) (acc.length :: stack)
      else if cmd.name = "end" then
        match stack with
        | [] => .err .UnexpectedEnd
        | startno :: rest =>
            match acc.get? startno with
            | some (some op) =>
                resolveAux ls
                  ((acc.set startno (some ⟨op.name, op.args ++ [Expr.lineptr acc.length]⟩)) ++
                    [some ⟨"end" ++ " " ++ op.name, cmd.args ++ [Expr.lineptr startno]⟩])
                  rest
            | _ => .panic
      else resolveAux ls (acc ++ [some cmd]) stack

/-- Block resolution of a whole program. -/
def resolve (lines : List (Option Command)) : RRes (List (Option Command)) :=
  resolveAux lines [] []

/-! ## General lemmas about the dispatch structure -/

/-- One-step unfolding of `builtins` with positive fuel. -/
theorem builtins_dispatch (fuel : Nat) (lines : List (Option Command)) (σ : Store)
    (st : St) (name : String) (args : List Val) :
    builtins (fuel + 1) lines σ st name args =
      match args.getLast? with
      | some (.lineptr lp) => builtinsBlock fuel lines σ st name args.dropLast lp
      | _ => builtinsNormal fuel lines σ st name args := rfl

/-- When no trailing line pointer is present, `builtins` runs the
normal-commands section. -/
theorem builtins_no_ptr (fuel : Nat) (lines : List (Option Command)) (σ : Store)
    (st : St) (name : String) (args : List Val)
    (hnl : ∀ v ∈ args, ∀ l, v ≠ Val.lineptr l) :
    builtins (fuel + 1) lines σ st name args = builtinsNormal fuel lines σ st name args := by
  rw [builtins_dispatch]
  rcases hl : args.getLast? with _ | v
  · rfl
  · have hv : v ∈ args := List.mem_of_mem_getLast? hl
    cases v with
    | lineptr l => exact absurd rfl (hnl _ hv l)
    | str s => rfl
    | num q => rfl
    | list a => rfl

/-- Looking up the key just inserted yields the new value. -/
theorem lookupA_insertA_self {α : Type} (m : List (String × α)) (k : String) (v : α) :
    lookupA (insertA m k v).1 k = some v := by
  induction m with
  | nil => simp [insertA, lookupA]
  | cons p rest ih =>
      by_cases h : p.1 = k
      · simp [insertA, h, lookupA]
      · simp [insertA, h, lookupA, ih]

/-- The previous binding returned by `insertA` is the lookup of the key. -/
theorem insertA_snd {α : Type} (m : List (String × α)) (k : String) (v : α) :
    (insertA m k v).2 = lookupA m k := by
  induction m with
  | nil => simp [insertA, lookupA]
  | cons p rest ih =>
      by_cases h : p.1 = k
      · simp [insertA, h, lookupA]
      · simp [insertA, h, lookupA, ih]

/-! ## C8: arity errors -/

/-- Embedded fixed-arity builtins with their declared argument counts, i.e.
every use of the `fixed!` / `monad!` / `dyad!` macros in the normal-commands
section of `builtins.rs`. -/
def fixedArityTable : List (String × Nat) :=
  [("sub", 2), ("div", 2), ("mod", 2), ("_pow", 2),
   ("_floor", 1), ("_round", 1), ("_sqrt", 1), ("_sin", 1), ("_cos", 1),
   ("_tan", 1), ("_asin", 1), ("_acos", 1), ("_atan", 1), ("_ln", 1), ("_exp", 1),
   ("len", 1), ("eq", 2), ("not", 1), ("lt", 2), ("gt", 2), ("lte", 2), ("gte", 2),
   ("input", 0), ("substr", 3), ("_chr", 1), ("_ord", 1),
   ("index", 2), ("push", 2), ("pop", 1), ("insert", 3), ("remove", 2),
   ("replace", 3), ("_islist", 1), ("_clone", 1), ("set", 2), ("_get", 1),
   ("_globals", 0), ("_locals", 0), ("_error", 1), ("_apply", 2), ("_time", 0)]

/-- C8: every fixed-arity builtin called with a mismatched number of
(non-line-pointer) arguments fails with an arity error naming the expected
count; in particular `sub` called with any count other than 2 fails naming 2,
and `sub 5 3` returns `2`. -/
theorem C8_fixed_arity :
    (∀ p ∈ fixedArityTable, ∀ (fuel : Nat) (lines : List (Option Command)) (σ : Store)
        (st : St) (args : List Val), args.length ≠ p.2 →
        (∀ v ∈ args, ∀ l, v ≠ Val.lineptr l) →
        builtins (fuel + 2) lines σ st p.1 args = (.err σ st (.ValueError p.2)))
    ∧ (∀ (fuel : Nat) (lines : List (Option Command)) (σ : Store) (st : St),
        builtins (fuel + 2) lines σ st "sub" [.num 5, .num 3] = (.ok σ st (.num 2))) := by
  constructor
  · intro p hp
    fin_cases hp <;>
      · intro fuel lines σ st args hlen hnl
        rw [show fuel + 2 = (fuel + 1) + 1 from rfl, builtins_no_ptr _ _ _ _ _ _ hnl]
        rcases args with _ | ⟨a, _ | ⟨b, _ | ⟨c, _ | ⟨d, t⟩⟩⟩⟩ <;>
          first
          | rfl
          | exact absurd rfl hlen
  · intro fuel lines σ st
    rw [show fuel + 2 = (fuel + 1) + 1 from rfl]
    rfl

/-- Witness for C8 at concrete inputs: `sub` with 1 and with 3 arguments
fails naming 2, and `sub 5 3` evaluates to 2. -/
theorem C8_fixed_arity_witness :
    builtins 2 [] [] ⟨[], [], [], 0⟩ "sub" [.num 5]
      = (.err [] ⟨[], [], [], 0⟩ (.ValueError 2))
    ∧ builtins 2 [] [] ⟨[], [], [], 0⟩ "sub" [.num 5, .num 3, .num 1]
      = (.err [] ⟨[], [], [], 0⟩ (.ValueError 2))
    ∧ builtins 2 [] [] ⟨[], [], [], 0⟩ "sub" [.num 5, .num 3]
      = (.ok [] ⟨[], [], [], 0⟩ (.num 2)) :=
  ⟨C8_fixed_arity.1 ("sub", 2) (by simp [fixedArityTable]) 0 [] [] ⟨[], [], [], 0⟩
      [.num 5] (by simp) (by simp),
   C8_fixed_arity.1 ("sub", 2) (by simp [fixedArityTable]) 0 [] [] ⟨[], [], [], 0⟩
      [.num 5, .num 3, .num 1] (by simp) (by simp),
   C8_fixed_arity.2 0 [] [] ⟨[], [], [], 0⟩⟩

/-! ## Unfolding lemmas for individual list builtins -/

theorem builtinsNormal_index (fuel : Nat) (lines : List (Option Command)) (σ : Store)
    (st : St) (a : Nat) (i : Val) :
    builtinsNormal (fuel + 1) lines σ st "index" [.list a, i] =
      thenB (liftB σ st (getList σ a)) fun σ st xs =>
        thenB (liftB σ st (toindex i)) fun σ st idx =>
          match xs.get? idx with
          | some v => (.ok σ st v)
          | none => (.err σ st (.IndexError idx xs.length)) := rfl

theorem builtinsNormal_insert (fuel : Nat) (lines : List (Option Command)) (σ : Store)
    (st : St) (a : Nat) (i v : Val) :
    builtinsNormal (fuel + 1) lines σ st "insert" [.list a, i, v] =
      (thenB (liftB σ st (getList σ a)) fun σ st xs =>
        thenB (liftB σ st (toindex i)) fun σ st ti =>
          (.ok (σ.set a (xs.take (min xs.length ti) ++ v :: xs.drop (min xs.length ti))) st defaultVal)) := rfl

theorem builtinsNormal_remove (fuel : Nat) (lines : List (Option Command)) (σ : Store)
    (st : St) (a : Nat) (i : Val) :
    builtinsNormal (fuel + 1) lines σ st "remove" [.list a, i] =
      (thenB (liftB σ st (getList σ a)) fun σ st xs =>
        thenB (liftB σ st (toindex i)) fun σ st ti =>
          match xs.get? (min xs.length ti) with
          | some v =>
              (.ok (σ.set a (xs.take (min xs.length ti) ++ xs.drop (min xs.length ti + 1))) st v)
          | none => (.panic σ st)) := rfl

theorem builtinsNormal_push (fuel : Nat) (lines : List (Option Command)) (σ : Store)
    (st : St) (a : Nat) (v : Val) :
    builtinsNormal (fuel + 1) lines σ st "push" [.list a, v] =
      (thenB (liftB σ st (getList σ a)) fun σ st xs =>
        (.ok (σ.set a (xs ++ [v])) st defaultVal)) := rfl

theorem builtinsNormal_clone (fuel : Nat) (lines : List (Option Command)) (σ : Store)
    (st : St) (a : Nat) :
    builtinsNormal (fuel + 1) lines σ st "_clone" [.list a] =
      (thenB (liftB σ st (getList σ a)) fun σ st xs =>
        (.ok (σ ++ [xs]) st (.list σ.length))) := rfl

/-- The store read of a valid address succeeds. -/
theorem getList_eq_ok {ε : Type} (σ : Store) (a : Nat) (xs : List Val)
    (h : σ.get? a = some xs) : (getList σ a : Outcome ε (List Val)) = .ok xs := by
  rw [getList, h]

/-- Index conversion of a number whose floor is at least one. -/
theorem toindex_num (i : ℚ) (idx : Nat) (h : i.floor.toNat = idx + 1) :
    toindex (.num i) = .ok idx := by
  rw [toindex]
  show (match i.floor.toNat with
        | 0 => (Outcome.err RunErrorKind.ZeroIndex : Outcome RunErrorKind Nat)
        | k + 1 => Outcome.ok k) = Outcome.ok idx
  rw [h]

/-! ## C7: 1-indexing of `index` -/

/-- C7: `index L 1` yields the first element of a non-empty list; `index L 0`
fails with the distinct zero-index error; an index whose floor points past the
last element fails with `IndexError` carrying the (zero-based) index and the
length. -/
theorem C7_one_indexing :
    (∀ (fuel : Nat) (lines : List (Option Command)) (σ : Store) (st : St) (a : Nat)
        (x : Val) (rest : List Val), σ.get? a = some (x :: rest) →
        builtins (fuel + 2) lines σ st "index" [.list a, .num 1] = (.ok σ st x))
    ∧ (∀ (fuel : Nat) (lines : List (Option Command)) (σ : Store) (st : St) (a : Nat)
        (xs : List Val), σ.get? a = some xs →
        builtins (fuel + 2) lines σ st "index" [.list a, .num 0] = (.err σ st .ZeroIndex))
    ∧ (∀ (fuel : Nat) (lines : List (Option Command)) (σ : Store) (st : St) (a : Nat)
        (xs : List Val) (i : ℚ) (idx : Nat), σ.get? a = some xs →
        i.floor.toNat = idx + 1 → xs.length ≤ idx →
        builtins (fuel + 2) lines σ st "index" [.list a, .num i]
          = (.err σ st (.IndexError idx xs.length))) := by
  refine ⟨?_, ?_, ?_⟩
  · intro fuel lines σ st a x rest h
    rw [show fuel + 2 = (fuel + 1) + 1 from rfl,
      builtins_no_ptr _ _ _ _ _ _ (by simp),
      builtinsNormal_index, getList_eq_ok _ _ _ h]
    rfl
  · intro fuel lines σ st a xs h
    rw [show fuel + 2 = (fuel + 1) + 1 from rfl,
      builtins_no_ptr _ _ _ _ _ _ (by simp),
      builtinsNormal_index, getList_eq_ok _ _ _ h]
    rfl
  · intro fuel lines σ st a xs i idx h hfloor hlen
    rw [show fuel + 2 = (fuel + 1) + 1 from rfl,
      builtins_no_ptr _ _ _ _ _ _ (by simp),
      builtinsNormal_index, getList_eq_ok _ _ _ h]
    show (thenB (liftB σ st (toindex (.num i))) fun σ st idx =>
          match xs.get? idx with
          | some v => (.ok σ st v)
          | none => (.err σ st (.IndexError idx xs.length))) = _
    rw [toindex_num i idx hfloor]
    show (match xs.get? idx with
          | some v => ((.ok σ st v) : BRes RunErrorKind Val)
          | none => (.err σ st (RunErrorKind.IndexError idx xs.length))) = _
    rw [List.get?_eq_none.mpr hlen]

/-- Witness for C7 on the two-element list `(10, 20)`: index 1 reads 10,
index 0 is the zero-index error, index 5 is `IndexError 4 2`. -/
theorem C7_one_indexing_witness :
    builtins 2 [] [[Val.num 10, Val.num 20]] ⟨[], [], [], 0⟩ "index" [.list 0, .num 1]
      = (.ok [[Val.num 10, Val.num 20]] ⟨[], [], [], 0⟩ (.num 10))
    ∧ builtins 2 [] [[Val.num 10, Val.num 20]] ⟨[], [], [], 0⟩ "index" [.list 0, .num 0]
      = (.err [[Val.num 10, Val.num 20]] ⟨[], [], [], 0⟩ .ZeroIndex)
    ∧ builtins 2 [] [[Val.num 10, Val.num 20]] ⟨[], [], [], 0⟩ "index" [.list 0, .num 5]
      = (.err [[Val.num 10, Val.num 20]] ⟨[], [], [], 0⟩ (.IndexError 4 2)) :=
  ⟨C7_one_indexing.1 0 [] _ _ 0 (.num 10) [.num 20] rfl,
   C7_one_indexing.2.1 0 [] _ _ 0 [.num 10, .num 20] rfl,
   C7_one_indexing.2.2 0 [] _ _ 0 [.num 10, .num 20] 5 4 rfl (by decide) (by decide)⟩

/-! ## C10: clamping of `insert` / `remove` -/

/-- Counterexample to C10 as stated: `remove L 4` on the two-element list
`(10, 20)` does not "target the last element" (which would remove and return
`20`); the clamp is `len.min(toindex)`, i.e. `2`, and `Vec::remove(2)` on a
two-element vector is a host panic.  So the past-the-end clamp of `remove` is
out of range for every past-the-end index, not only on the empty list. -/
theorem C10_remove_counterexample :
    builtins 2 [] [[Val.num 10, Val.num 20]] ⟨[], [], [], 0⟩ "remove" [.list 0, .num 4]
      = (.panic [[Val.num 10, Val.num 20]] ⟨[], [], [], 0⟩)
    ∧ ∀ v : Val, (Outcome.panic : Outcome RunErrorKind Val) ≠ .ok v := by
  exact ⟨rfl, fun v h => by cases h⟩

/-- Behaviour of `insert` on a list address with a positive-floor index. -/
theorem insert_clamp (fuel : Nat) (lines : List (Option Command)) (σ : Store) (st : St)
    (a : Nat) (xs : List Val) (i : ℚ) (ti : Nat) (v : Val) (h : σ.get? a = some xs)
    (hfloor : i.floor.toNat = ti + 1) (hv : ∀ l, v ≠ .lineptr l) :
    builtins (fuel + 2) lines σ st "insert" [.list a, .num i, v]
      = (.ok (σ.set a (xs.take (min xs.length ti) ++ v :: xs.drop (min xs.length ti))) st defaultVal) := by
  rw [show fuel + 2 = (fuel + 1) + 1 from rfl,
    builtins_no_ptr _ _ _ _ _ _ (by simpa using hv),
    builtinsNormal_insert, getList_eq_ok _ _ _ h]
  show (thenB (liftB σ st (toindex (.num i))) fun σ st ti =>
        (.ok (σ.set a (xs.take (min xs.length ti) ++ v :: xs.drop (min xs.length ti))) st defaultVal)) = _
  rw [toindex_num i ti hfloor]
  rfl

/-- Behaviour of `remove` on a list address with a positive-floor index:
reduced to the clamped-index lookup. -/
theorem remove_clamp (fuel : Nat) (lines : List (Option Command)) (σ : Store) (st : St)
    (a : Nat) (xs : List Val) (i : ℚ) (ti : Nat) (h : σ.get? a = some xs)
    (hfloor : i.floor.toNat = ti + 1) :
    builtins (fuel + 2) lines σ st "remove" [.list a, .num i]
      = (match xs.get? (min xs.length ti) with
         | some v =>
             ((.ok (σ.set a (xs.take (min xs.length ti) ++ xs.drop (min xs.length ti + 1))) st v) : BRes RunErrorKind Val)
         | none => (.panic σ st)) := by
  rw [show fuel + 2 = (fuel + 1) + 1 from rfl,
    builtins_no_ptr _ _ _ _ _ _ (by simp),
    builtinsNormal_remove, getList_eq_ok _ _ _ h]
  show (thenB (liftB σ st (toindex (.num i))) fun σ st ti =>
        match xs.get? (min xs.length ti) with
        | some v =>
            ((.ok (σ.set a (xs.take (min xs.length ti) ++ xs.drop (min xs.length ti + 1))) st v) : BRes RunErrorKind Val)
        | none => (.panic σ st)) = _
  rw [toindex_num i ti hfloor]
  rfl

/-- C10 (amended): for an index with numeric floor at least 1, `insert` clamps
the position to the list length (a past-the-end insert appends at the end)
and raises no out-of-bounds error; `remove` clamps the position to the list
length as well, which removes normally in bounds but is out of range for the
host `Vec::remove` whenever the index is past the end — including on the empty
list — so those calls panic in the host rather than raising any vurl error. -/
theorem C10_clamp_amended :
    (∀ (fuel : Nat) (lines : List (Option Command)) (σ : Store) (st : St) (a : Nat)
        (xs : List Val) (i : ℚ) (ti : Nat) (v : Val), σ.get? a = some xs →
        i.floor.toNat = ti + 1 → (∀ l, v ≠ .lineptr l) →
        builtins (fuel + 2) lines σ st "insert" [.list a, .num i, v]
          = (.ok (σ.set a (xs.take (min xs.length ti) ++ v :: xs.drop (min xs.length ti))) st defaultVal))
    ∧ (∀ (fuel : Nat) (lines : List (Option Command)) (σ : Store) (st : St) (a : Nat)
        (xs : List Val) (i : ℚ) (ti : Nat) (v : Val), σ.get? a = some xs →
        i.floor.toNat = ti + 1 → (∀ l, v ≠ .lineptr l) → xs.length ≤ ti →
        builtins (fuel + 2) lines σ st "insert" [.list a, .num i, v]
          = (.ok (σ.set a (xs ++ [v])) st defaultVal))
    ∧ (∀ (fuel : Nat) (lines : List (Option Command)) (σ : Store) (st : St) (a : Nat)
        (xs : List Val) (i : ℚ) (ti : Nat) (w : Val), σ.get? a = some xs →
        i.floor.toNat = ti + 1 → xs.get? ti = some w →
        builtins (fuel + 2) lines σ st "remove" [.list a, .num i]
          = (.ok (σ.set a (xs.take ti ++ xs.drop (ti + 1))) st w))
    ∧ (∀ (fuel : Nat) (lines : List (Option Command)) (σ : Store) (st : St) (a : Nat)
        (xs : List Val) (i : ℚ) (ti : Nat), σ.get? a = some xs →
        i.floor.toNat = ti + 1 → xs.length ≤ ti →
        builtins (fuel + 2) lines σ st "remove" [.list a, .num i] = (.panic σ st)) := by
  refine ⟨fun fuel lines σ st a xs i ti v h hf hv =>
      insert_clamp fuel lines σ st a xs i ti v h hf hv,
    ?_, ?_, ?_⟩
  · intro fuel lines σ st a xs i ti v h hfloor hv hpast
    rw [insert_clamp fuel lines σ st a xs i ti v h hfloor hv, min_eq_left hpast,
      List.take_length, List.drop_length]
  · intro fuel lines σ st a xs i ti w h hfloor hget
    have hti : ti < xs.length := by
      by_contra hc
      rw [List.get?_eq_none.mpr (le_of_not_lt hc)] at hget
      cases hget
    rw [remove_clamp fuel lines σ st a xs i ti h hfloor,
      min_eq_right (le_of_lt hti), hget]
  · intro fuel lines σ st a xs i ti h hfloor hpast
    rw [remove_clamp fuel lines σ st a xs i ti h hfloor, min_eq_left hpast,
      List.get?_eq_none.mpr le_rfl]

/-- Witness for C10: on the list `(10, 20)`, `insert` at position 9 appends
(yielding `(10, 20, 7)`), `remove 2` removes the last element normally,
`remove 4` panics in the host, and `remove 1` on the empty list panics in the
host. -/
theorem C10_clamp_amended_witness :
    builtins 2 [] [[Val.num 10, Val.num 20]] ⟨[], [], [], 0⟩ "insert"
        [.list 0, .num 9, .num 7]
      = (.ok [[Val.num 10, Val.num 20, Val.num 7]] ⟨[], [], [], 0⟩ defaultVal)
    ∧ builtins 2 [] [[Val.num 10, Val.num 20]] ⟨[], [], [], 0⟩ "remove" [.list 0, .num 2]
      = (.ok [[Val.num 10]] ⟨[], [], [], 0⟩ (.num 20))
    ∧ builtins 2 [] [[Val.num 10, Val.num 20]] ⟨[], [], [], 0⟩ "remove" [.list 0, .num 4]
      = (.panic [[Val.num 10, Val.num 20]] ⟨[], [], [], 0⟩)
    ∧ builtins 2 [] [[]] ⟨[], [], [], 0⟩ "remove" [.list 0, .num 1]
      = (.panic [[]] ⟨[], [], [], 0⟩) :=
  ⟨C10_clamp_amended.2.1 0 [] _ _ 0 [.num 10, .num 20] 9 8 (.num 7) rfl (by decide)
      (fun l h => by cases h) (by decide),
   C10_clamp_amended.2.2.1 0 [] _ _ 0 [.num 10, .num 20] 2 1 (.num 20) rfl (by decide) rfl,
   C10_clamp_amended.2.2.2 0 [] _ _ 0 [.num 10, .num 20] 4 3 rfl (by decide) (by decide),
   C10_clamp_amended.2.2.2 0 [] _ _ 0 [] 1 0 rfl (by decide) (by decide)⟩

/-! ## C3: aliasing and `_clone` -/

/-- An address that reads successfully is within the store. -/
theorem addr_lt_of_get {σ : Store} {a : Nat} {xs : List Val} (h : σ.get? a = some xs) :
    a < σ.length := by
  by_contra hc
  rw [List.get?_eq_none.mpr (le_of_not_lt hc)] at h
  cases h

/-- Behaviour of `push` on a valid list address. -/
theorem push_eq (fuel : Nat) (lines : List (Option Command)) (σ : Store) (st : St)
    (a : Nat) (ys : List Val) (v : Val) (h : σ.get? a = some ys)
    (hv : ∀ l, v ≠ .lineptr l) :
    builtins (fuel + 2) lines σ st "push" [.list a, v]
      = (.ok (σ.set a (ys ++ [v])) st defaultVal) := by
  rw [show fuel + 2 = (fuel + 1) + 1 from rfl,
    builtins_no_ptr _ _ _ _ _ _ (by simpa using hv),
    builtinsNormal_push, getList_eq_ok _ _ _ h]
  rfl

/-- Behaviour of `_clone` on a valid list address: a fresh cell is allocated
at the end of the store, holding a copy of the top-level sequence whose
elements (in particular nested list handles) are shared. -/
theorem clone_eq (fuel : Nat) (lines : List (Option Command)) (σ : Store) (st : St)
    (a : Nat) (xs : List Val) (h : σ.get? a = some xs) :
    builtins (fuel + 2) lines σ st "_clone" [.list a]
      = (.ok (σ ++ [xs]) st (.list σ.length)) := by
  rw [show fuel + 2 = (fuel + 1) + 1 from rfl,
    builtins_no_ptr _ _ _ _ _ _ (by simp),
    builtinsNormal_clone, getList_eq_ok _ _ _ h]
  rfl

/-- Counterexample to C3 as stated: with `L` the list `((5))` (an outer list
at address 1 whose single element is the inner list at address 0), `_clone L`
yields `M` at fresh address 2 whose element is the *same* inner handle
(address 0).  Pushing `9` onto `index M 1` — a mutation performed through `M`
at nesting depth 2 — is visible through `L`: afterwards
`index (index L 1) 2 = 9`.  So `_clone` is a one-level copy, not a deep one. -/
theorem C3_clone_counterexample :
    builtins 2 [] [[Val.num 5], [Val.list 0]] ⟨[], [], [], 0⟩ "_clone" [.list 1]
      = (.ok [[Val.num 5], [Val.list 0], [Val.list 0]] ⟨[], [], [], 0⟩ (.list 2))
    ∧ builtins 2 [] [[Val.num 5], [Val.list 0], [Val.list 0]] ⟨[], [], [], 0⟩ "index"
        [.list 2, .num 1]
      = (.ok [[Val.num 5], [Val.list 0], [Val.list 0]] ⟨[], [], [], 0⟩ (.list 0))
    ∧ builtins 2 [] [[Val.num 5], [Val.list 0], [Val.list 0]] ⟨[], [], [], 0⟩ "push"
        [.list 0, .num 9]
      = (.ok [[Val.num 5, Val.num 9], [Val.list 0], [Val.list 0]] ⟨[], [], [], 0⟩ defaultVal)
    ∧ builtins 2 [] [[Val.num 5, Val.num 9], [Val.list 0], [Val.list 0]] ⟨[], [], [], 0⟩
        "index" [.list 1, .num 1]
      = (.ok [[Val.num 5, Val.num 9], [Val.list 0], [Val.list 0]] ⟨[], [], [], 0⟩ (.list 0))
    ∧ builtins 2 [] [[Val.num 5, Val.num 9], [Val.list 0], [Val.list 0]] ⟨[], [], [], 0⟩
        "index" [.list 0, .num 2]
      = (.ok [[Val.num 5, Val.num 9], [Val.list 0], [Val.list 0]] ⟨[], [], [], 0⟩ (.num 9)) :=
  ⟨rfl, rfl, rfl, rfl, rfl⟩

/-- C3 (amended): `_clone L` allocates a fresh handle, distinct from `L`,
holding a copy of the top-level sequence, so top-level mutations through
either handle are invisible through the other; but the copy is one level
deep — element values, including nested list handles, are shared (see the
counterexample).  Binding `M` to `L` without cloning copies the handle
itself, so a mutation through `M` is a mutation of the very cell `L`
denotes. -/
theorem C3_clone_amended :
    (∀ (fuel : Nat) (lines : List (Option Command)) (σ : Store) (st : St) (a : Nat)
        (xs : List Val), σ.get? a = some xs →
        builtins (fuel + 2) lines σ st "_clone" [.list a]
            = (.ok (σ ++ [xs]) st (.list σ.length))
          ∧ a < σ.length)
    ∧ (∀ (fuel : Nat) (lines : List (Option Command)) (σ : Store) (st : St) (c a : Nat)
        (ys : List Val) (v : Val), σ.get? c = some ys → (∀ l, v ≠ .lineptr l) → a ≠ c →
        builtins (fuel + 2) lines σ st "push" [.list c, v]
            = (.ok (σ.set c (ys ++ [v])) st defaultVal)
          ∧ (σ.set c (ys ++ [v])).get? a = σ.get? a)
    ∧ (∀ (fuel : Nat) (lines : List (Option Command)) (σ : Store) (st : St) (a : Nat)
        (ys : List Val) (v : Val), σ.get? a = some ys → (∀ l, v ≠ .lineptr l) →
        builtins (fuel + 2) lines σ st "push" [.list a, v]
            = (.ok (σ.set a (ys ++ [v])) st defaultVal)
          ∧ (σ.set a (ys ++ [v])).get? a = some (ys ++ [v])) := by
  refine ⟨?_, ?_, ?_⟩
  · intro fuel lines σ st a xs h
    exact ⟨clone_eq fuel lines σ st a xs h, addr_lt_of_get h⟩
  · intro fuel lines σ st c a ys v h hv hne
    exact ⟨push_eq fuel lines σ st c ys v h hv, List.get?_set_ne _ _ (Ne.symm hne)⟩
  · intro fuel lines σ st a ys v h hv
    exact ⟨push_eq fuel lines σ st a ys v h hv,
      List.get?_set_eq_of_lt _ (addr_lt_of_get h)⟩

/-- Witness for C3: cloning the flat list `(5)` gives a fresh handle; a push
through the clone leaves the original cell unchanged, while a push through an
alias of the original handle is visible at the original address. -/
theorem C3_clone_amended_witness :
    (builtins 2 [] [[Val.num 5]] ⟨[], [], [], 0⟩ "_clone" [.list 0]
        = (.ok [[Val.num 5], [Val.num 5]] ⟨[], [], [], 0⟩ (.list 1))
      ∧ 0 < 1)
    ∧ (builtins 2 [] [[Val.num 5], [Val.num 5]] ⟨[], [], [], 0⟩ "push" [.list 1, .num 9]
        = (.ok [[Val.num 5], [Val.num 5, Val.num 9]] ⟨[], [], [], 0⟩ defaultVal)
      ∧ ([[Val.num 5], [Val.num 5, Val.num 9]] : Store).get? 0
          = ([[Val.num 5], [Val.num 5]] : Store).get? 0)
    ∧ (builtins 2 [] [[Val.num 5]] ⟨[], [], [], 0⟩ "push" [.list 0, .num 9]
        = (.ok [[Val.num 5, Val.num 9]] ⟨[], [], [], 0⟩ defaultVal)
      ∧ ([[Val.num 5, Val.num 9]] : Store).get? 0 = some [Val.num 5, Val.num 9]) :=
  ⟨(C3_clone_amended.1 0 [] [[Val.num 5]] ⟨[], [], [], 0⟩ 0 [Val.num 5] rfl :),
   (C3_clone_amended.2.1 0 [] [[Val.num 5], [Val.num 5]] ⟨[], [], [], 0⟩ 1 0 [Val.num 5]
      (.num 9) rfl (fun l h => by cases h) (by decide) :),
   (C3_clone_amended.2.2 0 [] [[Val.num 5]] ⟨[], [], [], 0⟩ 0 [Val.num 5] (.num 9) rfl
      (fun l h => by cases h) :)⟩

/-! ## C2: equality semantics -/

/-- Counterexample to C2 as stated: the one-element list `(1)` and the
two-element list `(1, 2)` have different lengths, yet `eq` answers true —
`l.iter().zip(m.iter()).all(..)` only compares the zipped common prefix and
never checks the lengths.  At the builtin level, `eq L M` returns the number
1 (true). -/
theorem C2_eq_counterexample :
    eqFuel 3 [[Val.num 1], [Val.num 1, Val.num 2]] (.list 0) (.list 1) = some true
    ∧ ([Val.num 1] : List Val).length ≠ ([Val.num 1, Val.num 2] : List Val).length
    ∧ builtins 4 [] [[Val.num 1], [Val.num 1, Val.num 2]] ⟨[], [], [], 0⟩ "eq"
        [.list 0, .list 1]
      = (.ok [[Val.num 1], [Val.num 1, Val.num 2]] ⟨[], [], [], 0⟩ (.num 1)) :=
  ⟨rfl, by decide, rfl⟩

/-- Elementwise equality over zipped pairs of numbers. -/
theorem eqPairs_nums (σ : Store) :
    ∀ (ps : List (Val × Val)) (f : Nat),
      (∀ p ∈ ps, (∃ x : ℚ, p.1 = .num x) ∧ ∃ y : ℚ, p.2 = .num y) →
      eqPairs (f + ps.length + 1) σ ps = some (ps.all fun p => decide (p.1 = p.2)) := by
  intro ps
  induction ps with
  | nil => intro f _; rfl
  | cons p rest ih =>
      intro f hp
      obtain ⟨⟨x, hx⟩, y, hy⟩ := hp p (List.mem_cons_self p rest)
      have hrest := fun q hq => hp q (List.mem_cons_of_mem p hq)
      obtain ⟨p1, p2⟩ := p
      simp only at hx hy
      subst hx
      subst hy
      show eqPairs (f + (rest.length + 1) + 1) σ ((Val.num x, Val.num y) :: rest) = _
      rw [show f + (rest.length + 1) + 1 = (f + rest.length + 1) + 1 from rfl]
      rw [eqPairs]
      show (match eqFuel (f + rest.length + 1) σ (.num x) (.num y) with
            | none => none
            | some false => some false
            | some true => eqPairs (f + rest.length + 1) σ rest) = _
      rw [show eqFuel (f + rest.length + 1) σ (.num x) (.num y)
            = some (decide (x = y)) from rfl]
      by_cases hxy : x = y
      · rw [decide_eq_true hxy, ih f hrest]
        simp [List.all_cons, hxy]
      · rw [decide_eq_false hxy]
        simp [List.all_cons, hxy]

/-- C2 (amended): `eq` on two lists is true iff they are elementwise equal on
the zipped common prefix (so a list compares equal to any extension of
itself; lengths are not compared): proved here for flat lists of numbers,
where elementwise equality of values coincides with numeric equality.  On two
numbers `eq` is numeric equality, and on two strings it is equality of the
textual representation. -/
theorem C2_eq_amended :
    (∀ (f : Nat) (σ : Store) (st : St) (lines : List (Option Command)) (a b : Nat)
        (u v : List Val), σ.get? a = some u → σ.get? b = some v →
        (∀ x ∈ u, ∃ q : ℚ, x = .num q) → (∀ y ∈ v, ∃ q : ℚ, y = .num q) →
        eqFuel (f + (u.zip v).length + 2) σ (.list a) (.list b)
            = some ((u.zip v).all fun p => decide (p.1 = p.2))
          ∧ builtins (f + (u.zip v).length + 3) lines σ st "eq" [.list a, .list b]
            = (.ok σ st (frombool ((u.zip v).all fun p => decide (p.1 = p.2)))))
    ∧ (∀ (f : Nat) (σ : Store) (x y : ℚ),
        eqFuel (f + 1) σ (.num x) (.num y) = some (decide (x = y)))
    ∧ (∀ (f : Nat) (σ : Store) (s t : String),
        eqFuel (f + 1) σ (.str s) (.str t) = some (decide (s = t))) := by
  refine ⟨?_, fun f σ x y => rfl, fun f σ s t => rfl⟩
  intro f σ st lines a b u v ha hb hu hv
  have hzip : ∀ p ∈ u.zip v, (∃ x : ℚ, p.1 = .num x) ∧ ∃ y : ℚ, p.2 = .num y := by
    intro p hp
    exact ⟨hu p.1 (List.of_mem_zip hp).1, hv p.2 (List.of_mem_zip hp).2⟩
  have hcore : eqFuel (f + (u.zip v).length + 2) σ (.list a) (.list b)
      = some ((u.zip v).all fun p => decide (p.1 = p.2)) := by
    rw [show f + (u.zip v).length + 2 = (f + (u.zip v).length + 1) + 1 from rfl, eqFuel]
    show (match σ.get? a, σ.get? b with
          | some u', some v' => eqPairs (f + (u.zip v).length + 1) σ (u'.zip v')
          | _, _ => none) = _
    rw [ha, hb]
    exact eqPairs_nums σ (u.zip v) f hzip
  refine ⟨hcore, ?_⟩
  rw [show f + (u.zip v).length + 3 = (f + (u.zip v).length + 2) + 1 from rfl,
    builtins_no_ptr _ _ _ _ _ _ (by simp)]
  show (match eqFuel ((f + (u.zip v).length + 1) + 1) σ (.list a) (.list b) with
        | some bo => ((.ok σ st (frombool bo)) : BRes RunErrorKind Val)
        | none => (.nofuel σ st)) = _
  rw [show (f + (u.zip v).length + 1) + 1 = f + (u.zip v).length + 2 from rfl, hcore]

/-- Witness for C2 (amended) on the lists `(1, 2)` and `(1, 3)`: the common
prefix disagrees at position 2, so `eq` answers false; plus number and string
instances. -/
theorem C2_eq_amended_witness :
    eqFuel 4 [[Val.num 1, Val.num 2], [Val.num 1, Val.num 3]] (.list 0) (.list 1)
        = some false
    ∧ builtins 5 [] [[Val.num 1, Val.num 2], [Val.num 1, Val.num 3]] ⟨[], [], [], 0⟩
        "eq" [.list 0, .list 1]
      = (.ok [[Val.num 1, Val.num 2], [Val.num 1, Val.num 3]] ⟨[], [], [], 0⟩ (frombool false))
    ∧ eqFuel 1 [] (.num 2) (.num 2) = some true
    ∧ eqFuel 1 [] (.str "ab") (.str "ab") = some true := by
  have h := C2_eq_amended.1 0 [[Val.num 1, Val.num 2], [Val.num 1, Val.num 3]]
    ⟨[], [], [], 0⟩ [] 0 1 [Val.num 1, Val.num 2] [Val.num 1, Val.num 3] rfl rfl
    (by intro x hx; fin_cases hx <;> exact ⟨_, rfl⟩)
    (by intro x hx; fin_cases hx <;> exact ⟨_, rfl⟩)
  have h2 := C2_eq_amended.2.1 0 [] 2 2
  have h3 := C2_eq_amended.2.2 0 [] "ab" "ab"
  exact ⟨by simpa using h.1, by simpa using h.2, by simpa using h2, by simpa using h3⟩

/-! ## C4: function redefinition -/

theorem builtinsBlock_define (fuel : Nat) (lines : List (Option Command)) (σ : Store)
    (st : St) (nm : String) (lp : Nat) :
    builtinsBlock (fuel + 1) lines σ st "define" [.str nm] lp =
      (match (insertA st.functions ("call " ++ nm) ⟨st.lineno + 1, none⟩).2 with
       | some _ =>
           ((.err σ { st with functions :=
                    (insertA st.functions ("call " ++ nm) ⟨st.lineno + 1, none⟩).1 } (RunErrorKind.FuncDefined nm)) : BRes RunErrorKind Val)
       | none =>
           (.ok σ ⟨st.globals, st.locals,
                 (insertA st.functions ("call " ++ nm) ⟨st.lineno + 1, none⟩).1, lp⟩ defaultVal)) := rfl

theorem builtinsBlock_cmd (fuel : Nat) (lines : List (Option Command)) (σ : Store)
    (st : St) (nm p : String) (lp : Nat) (hp : p ≠ "...") :
    builtinsBlock (fuel + 1) lines σ st "_cmd" [.str nm, .str p] lp =
      (match (insertA st.functions nm ⟨st.lineno + 1, some [p]⟩).2 with
       | some _ =>
           ((.err σ { st with functions :=
                    (insertA st.functions nm ⟨st.lineno + 1, some [p]⟩).1 } (RunErrorKind.FuncDefined nm)) : BRes RunErrorKind Val)
       | none =>
           (.ok σ ⟨st.globals, st.locals,
                 (insertA st.functions nm ⟨st.lineno + 1, some [p]⟩).1, lp⟩ defaultVal)) := by
  show (let arguments : Option (List String) := if p = "..." then none else some [p]
        match (insertA st.functions nm ⟨st.lineno + 1, arguments⟩).2 with
        | some _ =>
            ((.err σ { st with functions :=
                     (insertA st.functions nm ⟨st.lineno + 1, arguments⟩).1 } (RunErrorKind.FuncDefined nm)) : BRes RunErrorKind Val)
        | none =>
            (.ok σ ⟨st.globals, st.locals,
                  (insertA st.functions nm ⟨st.lineno + 1, arguments⟩).1, lp⟩ defaultVal)) = _
  rw [if_neg hp]

/-- Counterexample to C4 as stated: with `f` already defined (entry line 7),
executing a second `define f` block at line 2 raises the redefinition error —
but the function table has been *updated* by the preceding `HashMap::insert`:
afterwards it maps `"call f"` to the new entry (entry line 3), not the
original one, so the table is not unchanged and the original is not
retained. -/
theorem C4_redefine_counterexample :
    builtins 2 [] [] ⟨[], [], [("call f", ⟨7, none⟩)], 2⟩ "define" [.str "f", .lineptr 9]
      = (.err [] ⟨[], [], [("call f", ⟨3, none⟩)], 2⟩ (.FuncDefined "f"))
    ∧ lookupA [("call f", (⟨3, none⟩ : Func))] "call f" = some ⟨3, none⟩
    ∧ (⟨3, none⟩ : Func) ≠ ⟨7, none⟩ :=
  ⟨rfl, rfl, by decide⟩

/-- C4 (amended): executing a function-definition header (`define` form or
`_cmd` form) for a name already present in the function table fails with the
`FuncDefined` redefinition error, but the insert has already happened when
the old binding is detected: after the error the table holds the *new* entry
(entry line = header line + 1) under the name, and the original definition is
lost. -/
theorem C4_redefine_amended :
    (∀ (fuel : Nat) (lines : List (Option Command)) (σ : Store) (st : St)
        (nm : String) (lp : Nat) (old : Func),
        lookupA st.functions ("call " ++ nm) = some old →
        builtins (fuel + 2) lines σ st "define" [.str nm, .lineptr lp]
            = (.err σ { st with functions :=
                      (insertA st.functions ("call " ++ nm) ⟨st.lineno + 1, none⟩).1 } (.FuncDefined nm))
          ∧ lookupA (insertA st.functions ("call " ++ nm) ⟨st.lineno + 1, none⟩).1
              ("call " ++ nm) = some ⟨st.lineno + 1, none⟩)
    ∧ (∀ (fuel : Nat) (lines : List (Option Command)) (σ : Store) (st : St)
        (nm p : String) (lp : Nat) (old : Func), p ≠ "..." →
        lookupA st.functions nm = some old →
        builtins (fuel + 2) lines σ st "_cmd" [.str nm, .str p, .lineptr lp]
            = (.err σ { st with functions :=
                      (insertA st.functions nm ⟨st.lineno + 1, some [p]⟩).1 } (.FuncDefined nm))
          ∧ lookupA (insertA st.functions nm ⟨st.lineno + 1, some [p]⟩).1 nm
              = some ⟨st.lineno + 1, some [p]⟩) := by
  constructor
  · intro fuel lines σ st nm lp old hold
    constructor
    · rw [show fuel + 2 = (fuel + 1) + 1 from rfl, builtins_dispatch]
      show builtinsBlock (fuel + 1) lines σ st "define" [.str nm] lp = _
      rw [builtinsBlock_define, insertA_snd, hold]
    · exact lookupA_insertA_self st.functions ("call " ++ nm) ⟨st.lineno + 1, none⟩
  · intro fuel lines σ st nm p lp old hp hold
    constructor
    · rw [show fuel + 2 = (fuel + 1) + 1 from rfl, builtins_dispatch]
      show builtinsBlock (fuel + 1) lines σ st "_cmd" [.str nm, .str p] lp = _
      rw [builtinsBlock_cmd fuel lines σ st nm p lp hp, insertA_snd, hold]
    · exact lookupA_insertA_self st.functions nm ⟨st.lineno + 1, some [p]⟩

/-- Witness for C4 (amended) at the counterexample state and at a `_cmd`
header over a one-entry table. -/
theorem C4_redefine_amended_witness :
    (builtins 2 [] [] ⟨[], [], [("call f", ⟨7, none⟩)], 2⟩ "define"
        [.str "f", .lineptr 9]
      = (.err [] ⟨[], [], [("call f", ⟨3, none⟩)], 2⟩ (.FuncDefined "f")))
    ∧ (builtins 2 [] [] ⟨[], [], [("g", ⟨7, some [".x"]⟩)], 4⟩ "_cmd"
        [.str "g", .str ".y", .lineptr 9]
      = (.err [] ⟨[], [], [("g", ⟨5, some [".y"]⟩)], 4⟩ (.FuncDefined "g"))) := by
  have h1 := (C4_redefine_amended.1 0 [] [] ⟨[], [], [("call f", ⟨7, none⟩)], 2⟩ "f" 9
    ⟨7, none⟩ rfl).1
  have h2 := (C4_redefine_amended.2 0 [] [] ⟨[], [], [("g", ⟨7, some [".x"]⟩)], 4⟩ "g"
    ".y" 9 ⟨7, some [".x"]⟩ (by decide) rfl).1
  exact ⟨by simpa using h1, by simpa using h2⟩

/-! ## C5: control flow of `if` / `while` / `end` -/

theorem builtinsBlock_if (fuel : Nat) (lines : List (Option Command)) (σ : Store)
    (st : St) (cond : Val) (lp : Nat) :
    builtinsBlock (fuel + 1) lines σ st "if" [cond] lp =
      (match tonum cond with
       | .ok q =>
           if q = 0 then ((.ok σ { st with lineno := lp } defaultVal)
             : BRes RunErrorKind Val)
           else (.ok σ st defaultVal)
       | .err e => (.err σ st e)
       | .panic => (.panic σ st)
       | .nofuel => (.nofuel σ st)
       | .unmodeled => (.unmodeled σ st)) := rfl

theorem builtinsBlock_while (fuel : Nat) (lines : List (Option Command)) (σ : Store)
    (st : St) (cond : Val) (lp : Nat) :
    builtinsBlock (fuel + 1) lines σ st "while" [cond] lp =
      (match tonum cond with
       | .ok q =>
           if q = 0 then ((.ok σ { st with lineno := lp } defaultVal)
             : BRes RunErrorKind Val)
           else (.ok σ st defaultVal)
       | .err e => (.err σ st e)
       | .panic => (.panic σ st)
       | .nofuel => (.nofuel σ st)
       | .unmodeled => (.unmodeled σ st)) := rfl

/-- Full pipeline of `main.rs`: block-resolve the parsed program, then run it
from the empty state (`none` when resolution fails). -/
def runProgram (fuel : Nat) (src : List (Option Command)) : Option (BRes RunError Unit) :=
  match resolve src with
  | .ok r => some (execute fuel r)
  | _ => none

/-- Program `set n 0 / if 0 / set n (add [n] 1) / end`. -/
def progIfZero : List (Option Command) :=
  [some ⟨"set", [.lit "n", .num 0]⟩,
   some ⟨"if", [.num 0]⟩,
   some ⟨"set", [.lit "n", .cmd "add" [.var "n", .num 1]]⟩,
   some ⟨"end", []⟩]

/-- Program `set n 0 / if 1 / set n (add [n] 1) / end`. -/
def progIfOne : List (Option Command) :=
  [some ⟨"set", [.lit "n", .num 0]⟩,
   some ⟨"if", [.num 1]⟩,
   some ⟨"set", [.lit "n", .cmd "add" [.var "n", .num 1]]⟩,
   some ⟨"end", []⟩]

/-- Program `set n 0 / while 0 / set n (add [n] 1) / end`. -/
def progWhileZero : List (Option Command) :=
  [some ⟨"set", [.lit "n", .num 0]⟩,
   some ⟨"while", [.num 0]⟩,
   some ⟨"set", [.lit "n", .cmd "add" [.var "n", .num 1]]⟩,
   some ⟨"end", []⟩]

/-- Program `while 1 / end`: a `while` block opening at line 0. -/
def progWhileOne : List (Option Command) :=
  [some ⟨"while", [.num 1]⟩, some ⟨"end", []⟩]

/-- Resolution of `progWhileOne`: the opener at line 0 and its `end` wired. -/
def resolvedWhileOne : List (Option Command) :=
  [some ⟨"while", [.num 1, .lineptr 1]⟩, some ⟨"end while", [.lineptr 0]⟩]

/-- Counterexample to C5 as stated: the claim is universal over resolved
programs, but for a `while` block opening at line 0 — reachable from source
`while 1` / `end` as the first lines of a file — executing the `end` tagged
"while" does not set the program counter to the opener line minus one:
`state.lineno = lineptr - 1` (`builtins.rs` line 97) underflows `usize` and
the interpreter panics, both at the single dispatch and end to end through
the resolver and driver. -/
theorem C5_control_flow_counterexample :
    resolve progWhileOne = .ok resolvedWhileOne
    ∧ builtins 2 [] [] ⟨[], [], [], 1⟩ "end while" [.lineptr 0]
      = (.panic [] ⟨[], [], [], 1⟩)
    ∧ execute 8 resolvedWhileOne = (.panic [] ⟨[], [], [], 1⟩) :=
  ⟨rfl, rfl, rfl⟩

set_option maxHeartbeats 1000000 in
/-- C5, amended: an `if`/`while` whose condition is numerically zero jumps
the program counter to the matched `end` line; `end while` pointing back at
an opener line `lp + 1 ≥ 1` sets the counter to the opener line minus one,
`lp` (so the loop re-evaluates the condition after the increment), but when
the opener is line 0 the subtraction underflows `usize` and the interpreter
panics with no vurl error; `end if` is a no-op; and end to end through the
resolver, `if 0` runs its body zero times, `if 1` exactly once, and
`while 0` zero times. -/
theorem C5_control_flow_amended :
    (∀ (fuel : Nat) (lines : List (Option Command)) (σ : Store) (st : St)
        (cond : Val) (lp : Nat), tonum cond = .ok 0 →
        builtins (fuel + 2) lines σ st "if" [cond, .lineptr lp]
          = (.ok σ { st with lineno := lp } defaultVal))
    ∧ (∀ (fuel : Nat) (lines : List (Option Command)) (σ : Store) (st : St)
        (cond : Val) (lp : Nat), tonum cond = .ok 0 →
        builtins (fuel + 2) lines σ st "while" [cond, .lineptr lp]
          = (.ok σ { st with lineno := lp } defaultVal))
    ∧ (∀ (fuel : Nat) (lines : List (Option Command)) (σ : Store) (st : St) (lp : Nat),
        builtins (fuel + 2) lines σ st "end while" [.lineptr (lp + 1)]
          = (.ok σ { st with lineno := lp } defaultVal))
    ∧ (∀ (fuel : Nat) (lines : List (Option Command)) (σ : Store) (st : St),
        builtins (fuel + 2) lines σ st "end while" [.lineptr 0] = (.panic σ st))
    ∧ (∀ (fuel : Nat) (lines : List (Option Command)) (σ : Store) (st : St) (lp : Nat),
        builtins (fuel + 2) lines σ st "end if" [.lineptr lp] = (.ok σ st defaultVal))
    ∧ runProgram 8 progIfZero = some (.ok [] ⟨[("n", .num 0)], [], [], 4⟩ ())
    ∧ runProgram 12 progIfOne = some (.ok [] ⟨[("n", .num 1)], [], [], 4⟩ ())
    ∧ runProgram 8 progWhileZero = some (.ok [] ⟨[("n", .num 0)], [], [], 4⟩ ()) := by
  refine ⟨?_, ?_, fun fuel lines σ st lp => rfl, fun fuel lines σ st => rfl,
    fun fuel lines σ st lp => rfl, rfl, rfl, rfl⟩
  · intro fuel lines σ st cond lp h
    rw [show fuel + 2 = (fuel + 1) + 1 from rfl, builtins_dispatch]
    show builtinsBlock (fuel + 1) lines σ st "if" [cond] lp = _
    rw [builtinsBlock_if, h]
    rfl
  · intro fuel lines σ st cond lp h
    rw [show fuel + 2 = (fuel + 1) + 1 from rfl, builtins_dispatch]
    show builtinsBlock (fuel + 1) lines σ st "while" [cond] lp = _
    rw [builtinsBlock_while, h]
    rfl

/-- Witness for the amended C5 at a zero condition and concrete jump
targets, including the line-0 underflow panic. -/
theorem C5_control_flow_amended_witness :
    builtins 2 [] [] ⟨[], [], [], 1⟩ "if" [.num 0, .lineptr 3]
      = (.ok [] ⟨[], [], [], 3⟩ defaultVal)
    ∧ builtins 2 [] [] ⟨[], [], [], 1⟩ "while" [.num 0, .lineptr 3]
      = (.ok [] ⟨[], [], [], 3⟩ defaultVal)
    ∧ builtins 2 [] [] ⟨[], [], [], 3⟩ "end while" [.lineptr 1]
      = (.ok [] ⟨[], [], [], 0⟩ defaultVal)
    ∧ builtins 2 [] [] ⟨[], [], [], 3⟩ "end while" [.lineptr 0]
      = (.panic [] ⟨[], [], [], 3⟩)
    ∧ builtins 2 [] [] ⟨[], [], [], 3⟩ "end if" [.lineptr 1]
      = (.ok [] ⟨[], [], [], 3⟩ defaultVal) := by
  have h1 := C5_control_flow_amended.1 0 [] [] ⟨[], [], [], 1⟩ (.num 0) 3 rfl
  have h2 := C5_control_flow_amended.2.1 0 [] [] ⟨[], [], [], 1⟩ (.num 0) 3 rfl
  have h3 := C5_control_flow_amended.2.2.1 0 [] [] ⟨[], [], [], 3⟩ 0
  have h4 := C5_control_flow_amended.2.2.2.1 0 [] [] ⟨[], [], [], 3⟩
  have h5 := C5_control_flow_amended.2.2.2.2.1 0 [] [] ⟨[], [], [], 3⟩ 1
  exact ⟨by simpa using h1, by simpa using h2, by simpa using h3, by simpa using h4,
    by simpa using h5⟩

/-! ## C9: scope of locals and globals across calls -/

/-- The caller-visible state of a dispatch result. -/
def BRes.state {ε α : Type} : BRes ε α → St
  | .ok _ st _ => st
  | .err _ st _ => st
  | .panic _ st => st
  | .nofuel _ st => st
  | .unmodeled _ st => st

/-- Whether a dispatch result is a success. -/
def BRes.isOk {ε α : Type} : BRes ε α → Bool
  | .ok _ _ _ => true
  | _ => false

/-- The error of a dispatch result, when it is one. -/
def BRes.errOf {ε α : Type} : BRes ε α → Option ε
  | .err _ _ e => some e
  | _ => none

/-- One-step unfolding of `executeCommand` with positive fuel. -/
theorem executeCommand_succ (fuel : Nat) (lines : List (Option Command)) (σ : Store)
    (st : St) (name : String) (args : List Val) :
    executeCommand (fuel + 1) lines σ st name args =
      match builtins fuel lines σ st name args with
      | (.err σ1 st1 .IsNotBuiltIn) => callFunction fuel lines σ1 st1 name args
      | r => r := rfl

/-- One-step unfolding of `callFunction` with positive fuel. -/
theorem callFunction_succ (fuel : Nat) (lines : List (Option Command)) (σ : Store)
    (st : St) (name : String) (args : List Val) :
    callFunction (fuel + 1) lines σ st name args =
      (match lookupA st.functions name with
       | none => .err σ st .NotDefined
       | some func =>
           match func.arguments with
           | some fargs =>
               if fargs.length = args.length then
                 callFrame fuel lines (alloc σ args).1 st func
                   ((fargs.zip args).foldl (fun m kv => (insertA m kv.1 kv.2).1)
                     [(".args", .list (alloc σ args).2)])
               else .err (alloc σ args).1 st (.ValueError fargs.length)
           | none =>
               callFrame fuel lines (alloc σ args).1 st func
                 [(".args", .list (alloc σ args).2)]) := rfl

/-- One-step unfolding of `callFrame` with positive fuel. -/
theorem callFrame_succ (fuel : Nat) (lines : List (Option Command)) (σ : Store)
    (st : St) (func : Func) (locals : List (String × Val)) :
    callFrame (fuel + 1) lines σ st func locals =
      (match callLoop fuel lines σ ⟨st.globals, locals, st.functions, func.lineno⟩ with
       | .ok σ2 stc v => .ok σ2 ⟨stc.globals, st.locals, stc.functions, st.lineno⟩ v
       | .err σ2 stc e => .err σ2 ⟨stc.globals, st.locals, stc.functions, st.lineno⟩ e
       | .panic σ2 stc => .panic σ2 ⟨stc.globals, st.locals, stc.functions, st.lineno⟩
       | .nofuel σ2 stc => .nofuel σ2 ⟨stc.globals, st.locals, stc.functions, st.lineno⟩
       | .unmodeled σ2 stc =>
           .unmodeled σ2 ⟨stc.globals, st.locals, stc.functions, st.lineno⟩) := rfl

/-- A call frame hands the caller back its own locals and program counter,
whatever the callee did. -/
theorem callFrame_state (fuel : Nat) (lines : List (Option Command)) (σ : Store)
    (st : St) (func : Func) (locals : List (String × Val)) :
    (callFrame fuel lines σ st func locals).state.locals = st.locals
    ∧ (callFrame fuel lines σ st func locals).state.lineno = st.lineno := by
  cases fuel with
  | zero => exact ⟨rfl, rfl⟩
  | succ fuel =>
      rw [callFrame_succ]
      cases hcl : callLoop fuel lines σ ⟨st.globals, locals, st.functions, func.lineno⟩ <;>
        exact ⟨rfl, rfl⟩

/-- The whole function-call path preserves the caller's locals and program
counter. -/
theorem callFunction_state (fuel : Nat) (lines : List (Option Command)) (σ : Store)
    (st : St) (name : String) (args : List Val) :
    (callFunction fuel lines σ st name args).state.locals = st.locals
    ∧ (callFunction fuel lines σ st name args).state.lineno = st.lineno := by
  cases fuel with
  | zero => exact ⟨rfl, rfl⟩
  | succ fuel =>
      rw [callFunction_succ]
      rcases hf : lookupA st.functions name with _ | func
      · exact ⟨rfl, rfl⟩
      · rcases func with ⟨ln, _ | fargs⟩
        · exact callFrame_state fuel lines (alloc σ args).1 st ⟨ln, none⟩ _
        · dsimp only
          by_cases hl : fargs.length = args.length
          · rw [if_pos hl]
            exact callFrame_state fuel lines (alloc σ args).1 st ⟨ln, some fargs⟩ _
          · rw [if_neg hl]
            exact ⟨rfl, rfl⟩

/-- Program `define f / set g 1 / set .x 2 / end / set .y 5 / call f`. -/
def progScopes : List (Option Command) :=
  [some ⟨"define", [.lit "f"]⟩,
   some ⟨"set", [.lit "g", .num 1]⟩,
   some ⟨"set", [.lit ".x", .num 2]⟩,
   some ⟨"end", []⟩,
   some ⟨"set", [.lit ".y", .num 5]⟩,
   some ⟨"call", [.lit "f"]⟩]

/-- The block-resolved form of `progScopes`. -/
def resolvedScopes : List (Option Command) :=
  [some ⟨"define", [.lit "f", .lineptr 3]⟩,
   some ⟨"set", [.lit "g", .num 1]⟩,
   some ⟨"set", [.lit ".x", .num 2]⟩,
   some ⟨"end define", [.lineptr 0]⟩,
   some ⟨"set", [.lit ".y", .num 5]⟩,
   some ⟨"call", [.lit "f"]⟩]

set_option maxHeartbeats 1600000 in
/-- C9: a command that is not a builtin dispatches to the function-call path,
and that path returns the caller's own locals and program counter untouched
(the callee frame owns a fresh local map that is discarded on return), while
globals and the function table flow back.  End to end: after
`define f [set g 1; set .x 2] end; set .y 5; call f`, the global `g` written
inside the call is visible (`g = 1`), the callee's local `.x` is gone — the
caller's local map holds only `.y` — and no global named `x` or `.x` was ever
created, so the local never aliased a global of the same bare name. -/
theorem C9_scopes :
    (∀ (fuel : Nat) (lines : List (Option Command)) (σ : Store) (st : St)
        (name : String) (args : List Val) (σ1 : Store) (st1 : St),
        builtins fuel lines σ st name args = .err σ1 st1 .IsNotBuiltIn →
        executeCommand (fuel + 1) lines σ st name args
          = callFunction fuel lines σ1 st1 name args)
    ∧ (∀ (fuel : Nat) (lines : List (Option Command)) (σ : Store) (st : St)
        (name : String) (args : List Val),
        (callFunction fuel lines σ st name args).state.locals = st.locals
        ∧ (callFunction fuel lines σ st name args).state.lineno = st.lineno)
    ∧ resolve progScopes = .ok resolvedScopes
    ∧ (execute 20 resolvedScopes).isOk = true
    ∧ lookupA (execute 20 resolvedScopes).state.globals "g" = some (.num 1)
    ∧ lookupA (execute 20 resolvedScopes).state.locals ".x" = none
    ∧ lookupA (execute 20 resolvedScopes).state.locals ".y" = some (.num 5)
    ∧ lookupA (execute 20 resolvedScopes).state.globals "x" = none
    ∧ lookupA (execute 20 resolvedScopes).state.globals ".x" = none := by
  refine ⟨?_, callFunction_state, rfl, rfl, rfl, rfl, rfl, rfl, rfl⟩
  intro fuel lines σ st name args σ1 st1 hb
  rw [executeCommand_succ, hb]

/-- Witness for C9: the non-builtin name `f` over an empty function table
falls through to the function path, and the path preserves a concrete local
map. -/
theorem C9_scopes_witness :
    executeCommand 3 [] [] ⟨[], [(".y", .num 5)], [], 0⟩ "f" []
      = callFunction 2 [] [] ⟨[], [(".y", .num 5)], [], 0⟩ "f" []
    ∧ (callFunction 2 [] [] ⟨[], [(".y", .num 5)], [], 0⟩ "f" []).state.locals
        = [(".y", Val.num 5)] :=
  ⟨C9_scopes.1 2 [] [] ⟨[], [(".y", .num 5)], [], 0⟩ "f" [] [] ⟨[], [(".y", .num 5)], [], 0⟩ rfl,
   (C9_scopes.2.1 2 [] [] ⟨[], [(".y", .num 5)], [], 0⟩ "f" []).1⟩

/-! ## C1: named function definitions -/

/-- Program `_func f x y / add [x] [y] / end / set r (f 3 4)`, the claim's
named-function example in source form. -/
def progFuncDef : List (Option Command) :=
  [some ⟨"_func", [.lit "f", .lit "x", .lit "y"]⟩,
   some ⟨"add", [.var "x", .var "y"]⟩,
   some ⟨"end", []⟩,
   some ⟨"set", [.lit "r", .cmd "f" [.num 3, .num 4]]⟩]

/-- The block-resolved form of `progFuncDef`: the resolver wires `_func` as
the opener and renames its closer to `end _func`. -/
def resolvedFuncDef : List (Option Command) :=
  [some ⟨"_func", [.lit "f", .lit "x", .lit "y", .lineptr 2]⟩,
   some ⟨"add", [.var "x", .var "y"]⟩,
   some ⟨"end _func", [.lineptr 0]⟩,
   some ⟨"set", [.lit "r", .cmd "f" [.num 3, .num 4]]⟩]

/-- A hand-wired variant of the same program using the `_cmd` spelling that
`builtins.rs` actually implements (the resolver never produces it), with
dot-sigiled parameters so the body can read them, and an explicit `_return`
(the `end _cmd` value is what the call returns, not the last body line). -/
def progCmdWired : List (Option Command) :=
  [some ⟨"_cmd", [.lit "f", .lit ".x", .lit ".y", .lineptr 2]⟩,
   some ⟨"_return", [.cmd "add" [.var ".x", .var ".y"]]⟩,
   some ⟨"end _cmd", [.lineptr 0]⟩,
   some ⟨"set", [.lit "r", .cmd "f" [.num 3, .num 4]]⟩]

set_option maxHeartbeats 1600000 in
/-- C1: the named function-definition feature is broken by a name mismatch.
The resolver (`parse.rs` line 105) treats `_func` as the block opener and
tags its `end` as `end _func`, but the builtin dispatch implements the header
under `"_cmd"` and the closer under `"end _cmd"`; `run.rs`'s own comment
lists `_cmd` as the Lineptr-carrying opener.  Consequently executing the
claim's example program fails at line 0 with "command not defined" — nothing
is recorded in the function table and the call never happens.  The third
conjunct shows the intended machinery works when the `_cmd` spelling is
hand-wired (and the parameters carry the local sigil): the header records
`f` with entry line 1 and parameters `.x .y`, the body is skipped at
definition (the run reaches line 3), and `f 3 4` returns `7` into `r`. -/
theorem C1_func_cmd_mismatch :
    resolve progFuncDef = .ok resolvedFuncDef
    ∧ (execute 20 resolvedFuncDef).errOf = some (.mk 0 "_func" .NotDefined)
    ∧ (execute 30 progCmdWired).isOk = true
    ∧ lookupA (execute 30 progCmdWired).state.globals "r" = some (.num 7)
    ∧ lookupA (execute 30 progCmdWired).state.functions "f"
        = some ⟨1, some [".x", ".y"]⟩ :=
  ⟨rfl, rfl, rfl, rfl, rfl⟩

/-! ## C6 development -/

/-- Spec-side bracket-matching scan, written from the spec's words: walk the
lines keeping a stack of opener line numbers; an opener line pushes its line
number, an `end` line pops the matching opener (an empty pop is "unexpected
end") and records the matched pair, and a non-empty stack after the pass is
"unclosed block". -/
def scanPairs : List (Option Command) → Nat → List Nat →
    Except ParseError (List (Nat × Nat))
  | [], _, [] => .ok []
  | [], _, _ :: _ => .error .UnclosedBlock
  | none :: ls, i, stack => scanPairs ls (i + 1) stack
  | some cmd :: ls, i, stack =>
      if isOpener cmd.name then scanPairs ls (i + 1) (i :: stack)
      else if cmd.name = "end" then
        match stack with
        | [] => .error .UnexpectedEnd
        | s :: rest =>
            match scanPairs ls (i + 1) rest with
            | .ok pairs => .ok ((s, i) :: pairs)
            | .error e => .error e
      else scanPairs ls (i + 1) stack

theorem scanPairs_none (ls : List (Option Command)) (i : Nat) (stack : List Nat) :
    scanPairs (none :: ls) i stack = scanPairs ls (i + 1) stack := rfl

theorem scanPairs_open (cmd : Command) (ls : List (Option Command)) (i : Nat)
    (stack : List Nat) (ho : isOpener cmd.name = true) :
    scanPairs (some cmd :: ls) i stack = scanPairs ls (i + 1) (i :: stack) := by
  simp [scanPairs, ho]

theorem scanPairs_end (cmd : Command) (ls : List (Option Command)) (i : Nat)
    (s : Nat) (rest : List Nat) (ho : isOpener cmd.name = false)
    (he : cmd.name = "end") :
    scanPairs (some cmd :: ls) i (s :: rest) =
      match scanPairs ls (i + 1) rest with
      | .ok pairs => .ok ((s, i) :: pairs)
      | .error e => .error e := by
  simp [scanPairs, he, (by decide : isOpener "end" = false)]

theorem scanPairs_end_nil (cmd : Command) (ls : List (Option Command)) (i : Nat)
    (ho : isOpener cmd.name = false) (he : cmd.name = "end") :
    scanPairs (some cmd :: ls) i [] = .error .UnexpectedEnd := by
  simp [scanPairs, he, (by decide : isOpener "end" = false)]

theorem scanPairs_skip (cmd : Command) (ls : List (Option Command)) (i : Nat)
    (stack : List Nat) (ho : isOpener cmd.name = false) (he : ¬cmd.name = "end") :
    scanPairs (some cmd :: ls) i stack = scanPairs ls (i + 1) stack := by
  simp [scanPairs, ho, he]

/-- Positions occurring in the pairs produced by the scan: an opener position
comes from the stack or lies in the scanned suffix, an `end` position lies in
the scanned suffix, and every opener strictly precedes its `end`. -/
theorem scanPairs_mem (ls : List (Option Command)) (i : Nat) (stack : List Nat)
    (pairs : List (Nat × Nat)) (h : scanPairs ls i stack = .ok pairs)
    (hst : ∀ s ∈ stack, s < i) :
    ∀ p ∈ pairs, (p.1 ∈ stack ∨ i ≤ p.1) ∧ i ≤ p.2 ∧ p.1 < p.2 := by
  induction ls generalizing i stack pairs with
  | nil =>
      cases stack with
      | nil =>
          simp only [scanPairs] at h
          cases h
          intro p hp
          cases hp
      | cons s rest =>
          simp only [scanPairs] at h
          cases h
  | cons l ls ih =>
      cases l with
      | none =>
          rw [scanPairs_none] at h
          intro p hp
          obtain ⟨h1, h2, h3⟩ := ih (i + 1) stack pairs h
            (fun s hs => Nat.lt_succ_of_lt (hst s hs)) p hp
          exact ⟨h1.imp id Nat.le_of_succ_le, Nat.le_of_succ_le h2, h3⟩
      | some cmd =>
          by_cases ho : isOpener cmd.name
          · rw [scanPairs_open cmd ls i stack ho] at h
            intro p hp
            obtain ⟨h1, h2, h3⟩ := ih (i + 1) (i :: stack) pairs h
              (by
                intro s hs
                rcases List.mem_cons.mp hs with h | h
                · omega
                · exact Nat.lt_succ_of_lt (hst s h)) p hp
            refine ⟨?_, Nat.le_of_succ_le h2, h3⟩
            rcases h1 with h1 | h1
            · rcases List.mem_cons.mp h1 with h1 | h1
              · right; omega
              · left; exact h1
            · right; exact Nat.le_of_succ_le h1
          · by_cases he : cmd.name = "end"
            · cases stack with
              | nil =>
                  rw [scanPairs_end_nil cmd ls i (by simpa using ho) he] at h
                  cases h
              | cons s rest =>
                  rw [scanPairs_end cmd ls i s rest (by simpa using ho) he] at h
                  cases hrec : scanPairs ls (i + 1) rest with
                  | ok restPairs =>
                      rw [hrec] at h
                      cases h
                      intro p hp
                      rcases List.mem_cons.mp hp with hp | hp
                      · subst hp
                        exact ⟨Or.inl (List.mem_cons_self s rest), Nat.le_refl i,
                          hst s (List.mem_cons_self s rest)⟩
                      · obtain ⟨h1, h2, h3⟩ := ih (i + 1) rest restPairs hrec
                          (fun x hx => Nat.lt_succ_of_lt (hst x (List.mem_cons_of_mem s hx)))
                          p hp
                        refine ⟨?_, Nat.le_of_succ_le h2, h3⟩
                        rcases h1 with h1 | h1
                        · exact Or.inl (List.mem_cons_of_mem s h1)
                        · exact Or.inr (Nat.le_of_succ_le h1)
                  | error e =>
                      rw [hrec] at h
                      cases h
            · rw [scanPairs_skip cmd ls i stack (by simpa using ho) he] at h
              intro p hp
              obtain ⟨h1, h2, h3⟩ := ih (i + 1) stack pairs h
                (fun s hs => Nat.lt_succ_of_lt (hst s hs)) p hp
              exact ⟨h1.imp id Nat.le_of_succ_le, Nat.le_of_succ_le h2, h3⟩

/-- LIFO nesting of the matched pairs: pairs are emitted in increasing order
of their `end` lines, and no two pairs cross — a later-closing pair either
encloses an earlier one or lies wholly after it. -/
theorem scanPairs_lifo (ls : List (Option Command)) (i : Nat) (stack : List Nat)
    (pairs : List (Nat × Nat)) (h : scanPairs ls i stack = .ok pairs)
    (hst : ∀ s ∈ stack, s < i) (hdec : stack.Pairwise (· > ·)) :
    pairs.Pairwise (fun p q => p.2 < q.2 ∧ (q.1 < p.1 ∨ p.2 < q.1)) := by
  induction ls generalizing i stack pairs with
  | nil =>
      cases stack with
      | nil => simp only [scanPairs] at h; cases h; exact List.Pairwise.nil
      | cons s rest =>
          simp only [scanPairs] at h
          cases h
  | cons l ls ih =>
      cases l with
      | none =>
          rw [scanPairs_none] at h
          exact ih (i + 1) stack pairs h (fun s hs => Nat.lt_succ_of_lt (hst s hs)) hdec
      | some cmd =>
          by_cases ho : isOpener cmd.name
          · rw [scanPairs_open cmd ls i stack ho] at h
            refine ih (i + 1) (i :: stack) pairs h ?_ ?_
            · intro s hs
              rcases List.mem_cons.mp hs with h' | h'
              · omega
              · exact Nat.lt_succ_of_lt (hst s h')
            · exact List.pairwise_cons.mpr ⟨fun s hs => hst s hs, hdec⟩
          · by_cases he : cmd.name = "end"
            · cases stack with
              | nil =>
                  rw [scanPairs_end_nil cmd ls i (by simpa using ho) he] at h
                  cases h
              | cons s rest =>
                  rw [scanPairs_end cmd ls i s rest (by simpa using ho) he] at h
                  cases hrec : scanPairs ls (i + 1) rest with
                  | ok restPairs =>
                      rw [hrec] at h
                      cases h
                      have hrest : ∀ x ∈ rest, x < i + 1 :=
                        fun x hx => Nat.lt_succ_of_lt (hst x (List.mem_cons_of_mem s hx))
                      refine List.pairwise_cons.mpr ⟨?_, ?_⟩
                      · intro q hq
                        obtain ⟨h1, h2, _⟩ := scanPairs_mem ls (i + 1) rest restPairs
                          hrec hrest q hq
                        constructor
                        · omega
                        · rcases h1 with h1 | h1
                          · have : s > q.1 := (List.pairwise_cons.mp hdec).1 q.1 h1
                            left; omega
                          · right; omega
                      · exact ih (i + 1) rest restPairs hrec hrest
                          (List.pairwise_cons.mp hdec).2
                  | error e =>
                      rw [hrec] at h
                      cases h
            · rw [scanPairs_skip cmd ls i stack (by simpa using ho) he] at h
              exact ih (i + 1) stack pairs h (fun s hs => Nat.lt_succ_of_lt (hst s hs)) hdec

/-- Completeness of the matching on a successful scan: every stack entry,
every opener line and every `end` line of the scanned suffix occurs in some
matched pair. -/
theorem scanPairs_complete (ls : List (Option Command)) (i : Nat) (stack : List Nat)
    (pairs : List (Nat × Nat)) (h : scanPairs ls i stack = .ok pairs) :
    (∀ s ∈ stack, ∃ q ∈ pairs, q.1 = s)
    ∧ (∀ k c, ls.get? k = some (some c) → isOpener c.name = true →
        ∃ q ∈ pairs, q.1 = i + k)
    ∧ (∀ k c, ls.get? k = some (some c) → c.name = "end" →
        ∃ q ∈ pairs, q.2 = i + k) := by
  induction ls generalizing i stack pairs with
  | nil =>
      cases stack with
      | nil =>
          simp only [scanPairs] at h
          cases h
          exact ⟨fun s hs => absurd hs (List.not_mem_nil s),
            fun k c hk => by simp at hk, fun k c hk => by simp at hk⟩
      | cons s rest =>
          simp only [scanPairs] at h
          cases h
  | cons l ls ih =>
      cases l with
      | none =>
          rw [scanPairs_none] at h
          obtain ⟨ihs, iho, ihe⟩ := ih (i + 1) stack pairs h
          refine ⟨ihs, ?_, ?_⟩
          · intro k c hk hc
            cases k with
            | zero => cases hk
            | succ k =>
                obtain ⟨q, hq, hq1⟩ := iho k c hk hc
                exact ⟨q, hq, by omega⟩
          · intro k c hk hc
            cases k with
            | zero => cases hk
            | succ k =>
                obtain ⟨q, hq, hq1⟩ := ihe k c hk hc
                exact ⟨q, hq, by omega⟩
      | some cmd =>
          by_cases ho : isOpener cmd.name
          · rw [scanPairs_open cmd ls i stack ho] at h
            obtain ⟨ihs, iho, ihe⟩ := ih (i + 1) (i :: stack) pairs h
            refine ⟨fun s hs => ihs s (List.mem_cons_of_mem i hs), ?_, ?_⟩
            · intro k c hk hc
              cases k with
              | zero =>
                  obtain ⟨q, hq, hq1⟩ := ihs i (List.mem_cons_self i stack)
                  exact ⟨q, hq, by omega⟩
              | succ k =>
                  obtain ⟨q, hq, hq1⟩ := iho k c hk hc
                  exact ⟨q, hq, by omega⟩
            · intro k c hk hc
              cases k with
              | zero =>
                  cases hk
                  exact absurd (hc ▸ ho) (by decide)
              | succ k =>
                  obtain ⟨q, hq, hq1⟩ := ihe k c hk hc
                  exact ⟨q, hq, by omega⟩
          · by_cases he : cmd.name = "end"
            · cases stack with
              | nil =>
                  rw [scanPairs_end_nil cmd ls i (by simpa using ho) he] at h
                  cases h
              | cons s rest =>
                  rw [scanPairs_end cmd ls i s rest (by simpa using ho) he] at h
                  cases hrec : scanPairs ls (i + 1) rest with
                  | ok restPairs =>
                      rw [hrec] at h
                      cases h
                      obtain ⟨ihs, iho, ihe⟩ := ih (i + 1) rest restPairs hrec
                      refine ⟨?_, ?_, ?_⟩
                      · intro x hx
                        rcases List.mem_cons.mp hx with hx | hx
                        · exact ⟨(s, i), List.mem_cons_self _ _, hx.symm⟩
                        · obtain ⟨q, hq, hq1⟩ := ihs x hx
                          exact ⟨q, List.mem_cons_of_mem _ hq, hq1⟩
                      · intro k c hk hc
                        cases k with
                        | zero =>
                            cases hk
                            exact absurd hc ho
                        | succ k =>
                            obtain ⟨q, hq, hq1⟩ := iho k c hk hc
                            exact ⟨q, List.mem_cons_of_mem _ hq, by omega⟩
                      · intro k c hk hc
                        cases k with
                        | zero => exact ⟨(s, i), List.mem_cons_self _ _, by omega⟩
                        | succ k =>
                            obtain ⟨q, hq, hq1⟩ := ihe k c hk hc
                            exact ⟨q, List.mem_cons_of_mem _ hq, by omega⟩
                  | error e =>
                      rw [hrec] at h
                      cases h
            · rw [scanPairs_skip cmd ls i stack (by simpa using ho) he] at h
              obtain ⟨ihs, iho, ihe⟩ := ih (i + 1) stack pairs h
              refine ⟨ihs, ?_, ?_⟩
              · intro k c hk hc
                cases k with
                | zero =>
                    cases hk
                    exact absurd hc ho
                | succ k =>
                    obtain ⟨q, hq, hq1⟩ := iho k c hk hc
                    exact ⟨q, hq, by omega⟩
              · intro k c hk hc
                cases k with
                | zero =>
                    cases hk
                    exact absurd hc he
                | succ k =>
                    obtain ⟨q, hq, hq1⟩ := ihe k c hk hc
                    exact ⟨q, hq, by omega⟩


theorem get?_set_append {α : Type} (A R : List α) (s k : Nat) (x : α) (hk : k ≠ s) :
    (A.set s x ++ R).get? k = (A ++ R).get? k := by
  rcases Nat.lt_or_ge k A.length with h | h
  · rw [List.get?_append (by simpa using h), List.get?_append h,
      List.get?_set_ne x A (Ne.symm hk)]
  · rw [List.get?_append_right (by simpa using h), List.get?_append_right h,
      List.length_set]

theorem get?_append_cons_ne {α : Type} (A : List α) (x y : α) (L : List α) (k : Nat)
    (hk : k ≠ A.length) :
    (A ++ x :: L).get? k = (A ++ y :: L).get? k := by
  rcases Nat.lt_or_ge k A.length with h | h
  · rw [List.get?_append h, List.get?_append h]
  · rw [List.get?_append_right h, List.get?_append_right h]
    obtain ⟨m, hm⟩ : ∃ m, k - A.length = m + 1 := ⟨k - A.length - 1, by omega⟩
    rw [hm, List.get?_cons_succ, List.get?_cons_succ]

/-- The pointer the resolver wires into an opener line: the opener's own
arguments followed by one `Lineptr` at the matching `end` line. -/
def wireOpen (op : Command) (n : Nat) : Option Command :=
  some ⟨op.name, op.args ++ [Expr.lineptr n]⟩

/-- The rewritten `end` line: renamed `end <opener>`, its own arguments
followed by one `Lineptr` back at the opener line. -/
def wireEnd (op cmd : Command) (startno : Nat) : Option Command :=
  some ⟨"end" ++ " " ++ op.name, cmd.args ++ [Expr.lineptr startno]⟩

/-- Simulation of the resolver by the spec-side scan, generalized over the
already-processed prefix `acc` and the opener stack: the resolver fails with
exactly the scan's error, and on a successful scan it succeeds with an output
that agrees with the input outside the matched pairs and wires each matched
pair mutually, tagging the `end` with the opener's name. -/
theorem resolveAux_sim (ls : List (Option Command)) (acc : List (Option Command))
    (stack : List Nat)
    (hst : ∀ s ∈ stack, s < acc.length ∧
      ∃ op, acc.get? s = some (some op) ∧ isOpener op.name = true)
    (hdec : stack.Pairwise (· > ·)) :
    (∀ e, scanPairs ls acc.length stack = .error e → resolveAux ls acc stack = .err e)
    ∧ (∀ pairs, scanPairs ls acc.length stack = .ok pairs →
        ∃ out, resolveAux ls acc stack = .ok out
          ∧ out.length = acc.length + ls.length
          ∧ (∀ k, (∀ p ∈ pairs, k ≠ p.1 ∧ k ≠ p.2) → out.get? k = (acc ++ ls).get? k)
          ∧ (∀ p ∈ pairs, ∃ op eargs,
               (acc ++ ls).get? p.1 = some (some op) ∧ isOpener op.name = true ∧
               (acc ++ ls).get? p.2 = some (some (Command.mk "end" eargs)) ∧
               out.get? p.1 = some (some (Command.mk op.name (op.args ++ [Expr.lineptr p.2]))) ∧
               out.get? p.2 = some (some (Command.mk ("end" ++ " " ++ op.name)
                 (eargs ++ [Expr.lineptr p.1]))))) := by
  induction ls generalizing acc stack with
  | nil =>
      cases stack with
      | nil =>
          constructor
          · intro e he
            simp only [scanPairs] at he
            cases he
          · intro pairs hp
            simp only [scanPairs] at hp
            cases hp
            refine ⟨acc, rfl, by simp, fun k _ => by simp, fun p hp => absurd hp (List.not_mem_nil p)⟩
      | cons s rest =>
          constructor
          · intro e he
            simp only [scanPairs] at he
            cases he
            rfl
          · intro pairs hp
            simp only [scanPairs] at hp
            cases hp
  | cons l ls ih =>
      cases l with
      | none =>
          have hL : (acc ++ [none]) ++ ls = acc ++ none :: ls := by simp
          have hst' : ∀ s ∈ stack, s < (acc ++ [(none : Option Command)]).length ∧
              ∃ op, (acc ++ [(none : Option Command)]).get? s = some (some op) ∧
                isOpener op.name = true := by
            intro s hs
            obtain ⟨h1, op, h2, h3⟩ := hst s hs
            refine ⟨by simp; omega, op, ?_, h3⟩
            rw [List.get?_append h1]
            exact h2
          obtain ⟨ihErr, ihOk⟩ := ih (acc ++ [none]) stack hst' hdec
          constructor
          · intro e he
            show resolveAux ls (acc ++ [none]) stack = .err e
            refine ihErr e ?_
            rw [scanPairs_none] at he
            simpa using he
          · intro pairs hp
            rw [scanPairs_none] at hp
            obtain ⟨out, hout, hlen, hunt, hpairs⟩ := ihOk pairs (by simpa using hp)
            refine ⟨out, hout, by simp at hlen ⊢; omega, ?_, ?_⟩
            · intro k hk
              rw [hunt k hk, hL]
            · intro p hp'
              obtain ⟨op, eargs, h1, h2, h3, h4, h5⟩ := hpairs p hp'
              rw [hL] at h1 h3
              exact ⟨op, eargs, h1, h2, h3, h4, h5⟩
      | some cmd =>
          by_cases ho : isOpener cmd.name
          · have hL : (acc ++ [some cmd]) ++ ls = acc ++ some cmd :: ls := by simp
            have hstep : resolveAux (some cmd :: ls) acc stack =
                resolveAux ls (acc ++ [some cmd]) (acc.length :: stack) := by
              simp [resolveAux, ho]
            have hst' : ∀ s ∈ acc.length :: stack, s < (acc ++ [some cmd]).length ∧
                ∃ op, (acc ++ [some cmd]).get? s = some (some op) ∧
                  isOpener op.name = true := by
              intro s hs
              rcases List.mem_cons.mp hs with hs | hs
              · subst hs
                exact ⟨by simp, cmd, List.get?_concat_length acc (some cmd), ho⟩
              · obtain ⟨h1, op, h2, h3⟩ := hst s hs
                refine ⟨by simp; omega, op, ?_, h3⟩
                rw [List.get?_append h1]
                exact h2
            have hdec' : (acc.length :: stack).Pairwise (· > ·) :=
              List.pairwise_cons.mpr ⟨fun s hs => (hst s hs).1, hdec⟩
            obtain ⟨ihErr, ihOk⟩ := ih (acc ++ [some cmd]) (acc.length :: stack) hst' hdec'
            constructor
            · intro e he
              rw [hstep]
              refine ihErr e ?_
              rw [scanPairs_open cmd ls acc.length stack ho] at he
              simpa using he
            · intro pairs hp
              rw [scanPairs_open cmd ls acc.length stack ho] at hp
              obtain ⟨out, hout, hlen, hunt, hpairs⟩ := ihOk pairs (by simpa using hp)
              refine ⟨out, by rw [hstep]; exact hout, by simp at hlen ⊢; omega, ?_, ?_⟩
              · intro k hk
                rw [hunt k hk, hL]
              · intro p hp'
                obtain ⟨op, eargs, h1, h2, h3, h4, h5⟩ := hpairs p hp'
                rw [hL] at h1 h3
                exact ⟨op, eargs, h1, h2, h3, h4, h5⟩
          · have hof : isOpener cmd.name = false := by simpa using ho
            by_cases he : cmd.name = "end"
            · cases stack with
              | nil =>
                  constructor
                  · intro e he'
                    rw [scanPairs_end_nil cmd ls acc.length hof he] at he'
                    cases he'
                    simp [resolveAux, hof, he, (by decide : isOpener "end" = false)]
                  · intro pairs hp
                    rw [scanPairs_end_nil cmd ls acc.length hof he] at hp
                    cases hp
              | cons startno rest =>
                  obtain ⟨hsn, op, hop, hopName⟩ := hst startno (List.mem_cons_self _ _)
                  have hrestlt : ∀ x ∈ rest, x < startno :=
                    fun x hx => (List.pairwise_cons.mp hdec).1 x hx
                  have hop2 : acc[startno]? = some (some op) := by
                    rw [← List.get?_eq_getElem?]
                    exact hop
                  have hstep : resolveAux (some cmd :: ls) acc (startno :: rest) =
                      resolveAux ls
                        (acc.set startno (wireOpen op acc.length) ++ [wireEnd op cmd startno])
                        rest := by
                    simp [resolveAux, hof, he, hop2, wireOpen, wireEnd,
                      (by decide : isOpener "end" = false)]
                  have hlen' : (acc.set startno (wireOpen op acc.length) ++
                      [wireEnd op cmd startno]).length = acc.length + 1 := by
                    simp
                  have hst' : ∀ s ∈ rest,
                      s < (acc.set startno (wireOpen op acc.length) ++
                        [wireEnd op cmd startno]).length ∧
                      ∃ op', (acc.set startno (wireOpen op acc.length) ++
                        [wireEnd op cmd startno]).get? s = some (some op') ∧
                        isOpener op'.name = true := by
                    intro s hs
                    obtain ⟨h1, op', h2, h3⟩ := hst s (List.mem_cons_of_mem _ hs)
                    refine ⟨by rw [hlen']; omega, op', ?_, h3⟩
                    rw [List.get?_append (by simpa using h1),
                      List.get?_set_ne _ acc (Nat.ne_of_gt (hrestlt s hs))]
                    exact h2
                  have hdec' : rest.Pairwise (· > ·) := (List.pairwise_cons.mp hdec).2
                  obtain ⟨ihErr, ihOk⟩ :=
                    ih (acc.set startno (wireOpen op acc.length) ++ [wireEnd op cmd startno])
                      rest hst' hdec'
                  have htrans : ∀ k, k ≠ startno → k ≠ acc.length →
                      ((acc.set startno (wireOpen op acc.length) ++ [wireEnd op cmd startno])
                        ++ ls).get? k = (acc ++ some cmd :: ls).get? k := by
                    intro k hk1 hk2
                    rw [List.append_assoc, List.singleton_append,
                      get?_set_append acc (wireEnd op cmd startno :: ls) startno k _ hk1]
                    exact get?_append_cons_ne acc (wireEnd op cmd startno) (some cmd) ls k hk2
                  constructor
                  · intro e he'
                    rw [scanPairs_end cmd ls acc.length startno rest hof he] at he'
                    cases hrec : scanPairs ls (acc.length + 1) rest with
                    | ok restPairs =>
                        rw [hrec] at he'
                        cases he'
                    | error e' =>
                        rw [hrec] at he'
                        injection he' with heq
                        rw [hstep, ← heq]
                        refine ihErr e' ?_
                        rw [hlen']
                        exact hrec
                  · intro pairs hp
                    rw [scanPairs_end cmd ls acc.length startno rest hof he] at hp
                    cases hrec : scanPairs ls (acc.length + 1) rest with
                    | error e' =>
                        rw [hrec] at hp
                        cases hp
                    | ok restPairs =>
                        rw [hrec] at hp
                        cases hp
                        obtain ⟨out, hout, hlen, hunt, hpairs⟩ :=
                          ihOk restPairs (by rw [hlen']; exact hrec)
                        have hmem : ∀ p ∈ restPairs,
                            (p.1 ∈ rest ∨ acc.length + 1 ≤ p.1) ∧
                            acc.length + 1 ≤ p.2 ∧ p.1 < p.2 :=
                          scanPairs_mem ls (acc.length + 1) rest restPairs hrec
                            (fun s hs =>
                              Nat.lt_succ_of_lt (hst s (List.mem_cons_of_mem _ hs)).1)
                        have havoid : ∀ p ∈ restPairs,
                            (p.1 ≠ startno ∧ p.1 ≠ acc.length) ∧
                            (p.2 ≠ startno ∧ p.2 ≠ acc.length) := by
                          intro p hp'
                          obtain ⟨h1, h2, h3⟩ := hmem p hp'
                          have hA : p.1 ≠ startno ∧ p.1 ≠ acc.length := by
                            rcases h1 with h1 | h1
                            · have := hrestlt p.1 h1
                              omega
                            · omega
                          exact ⟨hA, by omega, by omega⟩
                        refine ⟨out, by rw [hstep]; exact hout, ?_, ?_, ?_⟩
                        · rw [hlen, hlen']
                          simp
                          omega
                        · intro k hk
                          have hknot := hk (startno, acc.length) (List.mem_cons_self _ _)
                          have hkrest : ∀ p ∈ restPairs, k ≠ p.1 ∧ k ≠ p.2 :=
                            fun p hp' => hk p (List.mem_cons_of_mem _ hp')
                          rw [hunt k hkrest]
                          exact htrans k hknot.1 hknot.2
                        · intro p hp'
                          rcases List.mem_cons.mp hp' with hp' | hp'
                          · subst hp'
                            refine ⟨op, cmd.args, ?_, hopName, ?_, ?_, ?_⟩
                            · rw [List.get?_append hsn]
                              exact hop
                            · rw [List.get?_append_right (Nat.le_refl _), Nat.sub_self, ← he]
                              rfl
                            · have hx : ∀ p ∈ restPairs, startno ≠ p.1 ∧ startno ≠ p.2 := by
                                intro p hp''
                                obtain ⟨⟨a1, _⟩, ⟨b1, _⟩⟩ := havoid p hp''
                                exact ⟨Ne.symm a1, Ne.symm b1⟩
                              rw [hunt startno hx, List.append_assoc, List.singleton_append,
                                List.get?_append (by simpa using hsn),
                                List.get?_set_eq_of_lt (wireOpen op acc.length) hsn]
                              rfl
                            · have hx : ∀ p ∈ restPairs, acc.length ≠ p.1 ∧ acc.length ≠ p.2 := by
                                intro p hp''
                                obtain ⟨⟨_, a2⟩, ⟨_, b2⟩⟩ := havoid p hp''
                                exact ⟨Ne.symm a2, Ne.symm b2⟩
                              rw [hunt acc.length hx, List.append_assoc, List.singleton_append,
                                List.get?_append_right (le_of_eq (by simp)),
                                show acc.length - (acc.set startno (wireOpen op acc.length)).length = 0
                                  by simp]
                              rfl
                          · obtain ⟨op', eargs', h1, h2, h3, h4, h5⟩ := hpairs p hp'
                            obtain ⟨⟨a1, a2⟩, ⟨b1, b2⟩⟩ := havoid p hp'
                            refine ⟨op', eargs', ?_, h2, ?_, h4, h5⟩
                            · rw [← htrans p.1 a1 a2]
                              exact h1
                            · rw [← htrans p.2 b1 b2]
                              exact h3
            · have hL : (acc ++ [some cmd]) ++ ls = acc ++ some cmd :: ls := by simp
              have hstep : resolveAux (some cmd :: ls) acc stack =
                  resolveAux ls (acc ++ [some cmd]) stack := by
                simp [resolveAux, hof, he]
              have hst' : ∀ s ∈ stack, s < (acc ++ [some cmd]).length ∧
                  ∃ op, (acc ++ [some cmd]).get? s = some (some op) ∧
                    isOpener op.name = true := by
                intro s hs
                obtain ⟨h1, op, h2, h3⟩ := hst s hs
                refine ⟨by simp; omega, op, ?_, h3⟩
                rw [List.get?_append h1]
                exact h2
              obtain ⟨ihErr, ihOk⟩ := ih (acc ++ [some cmd]) stack hst' hdec
              constructor
              · intro e he'
                rw [hstep]
                refine ihErr e ?_
                rw [scanPairs_skip cmd ls acc.length stack hof he] at he'
                simpa using he'
              · intro pairs hp
                rw [scanPairs_skip cmd ls acc.length stack hof he] at hp
                obtain ⟨out, hout, hlen, hunt, hpairs⟩ := ihOk pairs (by simpa using hp)
                refine ⟨out, by rw [hstep]; exact hout, by simp at hlen ⊢; omega, ?_, ?_⟩
                · intro k hk
                  rw [hunt k hk, hL]
                · intro p hp'
                  obtain ⟨op, eargs, h1, h2, h3, h4, h5⟩ := hpairs p hp'
                  rw [hL] at h1 h3
                  exact ⟨op, eargs, h1, h2, h3, h4, h5⟩

/-- The three-line block program for the C6 witness:
`while 0` / `print "hi"` / `end`. -/
def progC6 : List (Option Command) :=
  [some ⟨"while", [Expr.num 0]⟩, some ⟨"print", [Expr.lit "hi"]⟩, some ⟨"end", []⟩]

/-- Resolution of `progC6`: opener and `end` mutually wired. -/
def resolvedC6 : List (Option Command) :=
  [some ⟨"while", [Expr.num 0, Expr.lineptr 2]⟩, some ⟨"print", [Expr.lit "hi"]⟩,
   some ⟨"end while", [Expr.lineptr 0]⟩]

/-- C6: block resolution is correct bracket matching.  `scanPairs` is the
spec-side matching scan over opener/`end` lines; for tokenizer output (no
line-pointer arguments in the input), the resolver never hits its `unwrap`,
fails with exactly the scan's "unexpected end" / "unclosed block" errors, and
on a balanced program returns a same-length line list, unchanged outside the
matched pairs, in which every opener line and every `end` line belongs to a
matched pair, the matched pairs are strictly LIFO-nested (emitted in order of
their `end` lines, never crossing), and each matched pair is mutually wired:
the opener keeps its arguments plus exactly one trailing `Lineptr` to its
`end` line, and the `end` line keeps its arguments plus exactly one trailing
`Lineptr` back to the opener and is renamed `end <opener name>`. -/
theorem C6_block_resolution (lines : List (Option Command))
    (hnp : ∀ ocmd ∈ lines, ∀ c a, ocmd = some c → a ∈ c.args → ∀ m, a ≠ Expr.lineptr m) :
    resolve lines ≠ RRes.panic
    ∧ (∀ e, scanPairs lines 0 [] = .error e → resolve lines = .err e)
    ∧ (∀ pairs, scanPairs lines 0 [] = .ok pairs →
        pairs.Pairwise (fun p q => p.2 < q.2 ∧ (q.1 < p.1 ∨ p.2 < q.1))
        ∧ ∃ out, resolve lines = .ok out
          ∧ out.length = lines.length
          ∧ (∀ k, (∀ p ∈ pairs, k ≠ p.1 ∧ k ≠ p.2) → out.get? k = lines.get? k)
          ∧ (∀ k c, lines.get? k = some (some c) → isOpener c.name = true →
              ∃ p ∈ pairs, p.1 = k)
          ∧ (∀ k c, lines.get? k = some (some c) → c.name = "end" →
              ∃ p ∈ pairs, p.2 = k)
          ∧ (∀ p ∈ pairs, ∃ op eargs,
               lines.get? p.1 = some (some op) ∧ isOpener op.name = true ∧
               (∀ a ∈ op.args, ∀ m, a ≠ Expr.lineptr m) ∧
               lines.get? p.2 = some (some (Command.mk "end" eargs)) ∧
               (∀ a ∈ eargs, ∀ m, a ≠ Expr.lineptr m) ∧
               out.get? p.1 = some (some (Command.mk op.name (op.args ++ [Expr.lineptr p.2]))) ∧
               out.get? p.2 = some (some (Command.mk ("end" ++ " " ++ op.name)
                 (eargs ++ [Expr.lineptr p.1]))))) := by
  obtain ⟨simErr, simOk⟩ := resolveAux_sim lines [] []
    (fun s hs => absurd hs (List.not_mem_nil s)) List.Pairwise.nil
  refine ⟨?_, ?_, ?_⟩
  · intro hcontra
    cases hs : scanPairs lines 0 [] with
    | ok pairs =>
        obtain ⟨out, hout, -, -, -⟩ := simOk pairs hs
        have hres : resolve lines = RRes.ok out := hout
        rw [hres] at hcontra
        cases hcontra
    | error e =>
        have hres : resolve lines = RRes.err e := simErr e hs
        rw [hres] at hcontra
        cases hcontra
  · intro e hs
    exact simErr e hs
  · intro pairs hs
    obtain ⟨out, hout, hlen, hunt, hpairs⟩ := simOk pairs hs
    obtain ⟨-, iho, ihe⟩ := scanPairs_complete lines 0 [] pairs hs
    refine ⟨scanPairs_lifo lines 0 [] pairs hs
        (fun s hmem => absurd hmem (List.not_mem_nil s)) List.Pairwise.nil,
      out, hout, by simpa using hlen, ?_, ?_, ?_, ?_⟩
    · intro k hk
      simpa using hunt k hk
    · intro k c hk hc
      obtain ⟨q, hq, hq1⟩ := iho k c hk hc
      exact ⟨q, hq, by omega⟩
    · intro k c hk hc
      obtain ⟨q, hq, hq1⟩ := ihe k c hk hc
      exact ⟨q, hq, by omega⟩
    · intro p hp
      obtain ⟨op, eargs, h1, h2, h3, h4, h5⟩ := hpairs p hp
      have h1L : lines.get? p.1 = some (some op) := h1
      have h3L : lines.get? p.2 = some (some (Command.mk "end" eargs)) := h3
      refine ⟨op, eargs, h1L, h2, ?_, h3L, ?_, h4, h5⟩
      · intro a ha m
        exact hnp (some op) (List.get?_mem h1L) op a rfl ha m
      · intro a ha m
        exact hnp (some (Command.mk "end" eargs)) (List.get?_mem h3L)
          (Command.mk "end" eargs) a rfl ha m

/-- Closed witness for C6: on `while 0` / `print "hi"` / `end`, the scan
matches lines 0 and 2, the resolver succeeds, the opener carries the trailing
pointer to line 2, and the `end` line is renamed `end while` with the trailing
pointer back to line 0. -/
theorem C6_block_resolution_witness :
    scanPairs progC6 0 [] = Except.ok [(0, 2)]
    ∧ resolve progC6 = RRes.ok resolvedC6
    ∧ resolvedC6.get? 0 = some (some (Command.mk "while" [Expr.num 0, Expr.lineptr 2]))
    ∧ resolvedC6.get? 2 = some (some (Command.mk "end while" [Expr.lineptr 0])) := by
  have hnp : ∀ ocmd ∈ progC6, ∀ c a, ocmd = some c → a ∈ c.args →
      ∀ m, a ≠ Expr.lineptr m := by
    intro ocmd hmem c a hc ha m hlp
    fin_cases hmem
    · injection hc with hc
      subst hc
      simp only [List.mem_singleton] at ha
      subst ha
      cases hlp
    · injection hc with hc
      subst hc
      simp only [List.mem_singleton] at ha
      subst ha
      cases hlp
    · injection hc with hc
      subst hc
      exact absurd ha (List.not_mem_nil a)
  obtain ⟨-, out, hres, -, -, -, -, hpairs⟩ :=
    (C6_block_resolution progC6 hnp).2.2 [(0, 2)] rfl
  obtain ⟨op, eargs, h1, -, -, h4, -, h6, h7⟩ :=
    hpairs (0, 2) (List.mem_cons_self _ _)
  have h1' : some (some op) = some (some (Command.mk "while" [Expr.num 0])) :=
    h1.symm.trans rfl
  injection h1' with h1'
  injection h1' with h1'
  subst h1'
  have h4' : some (some (Command.mk "end" eargs)) = some (some (Command.mk "end" [])) :=
    h4.symm.trans rfl
  injection h4' with h4'
  injection h4' with h4'
  injection h4' with hn4 h4'
  subst h4'
  have hres' : RRes.ok out = RRes.ok resolvedC6 := hres.symm.trans rfl
  injection hres' with hres'
  subst hres'
  exact ⟨rfl, hres, h6, h7⟩


end Vurl
